import Mathlib

/-!
# Verification of the runhuman-issue-tester-action coordination core

Shallow embedding of the TypeScript sources of the `runhuman-issue-tester-action`
repository, covering:

* the data contracts of `src/types.ts` (`LinkedIssue`, `AnalyzeIssueResponse`,
  `QATestResponse`, `IssueTestResult`, `ActionResults`, `ParsedInputs`);
* `hasLabel` and `parseIssueNumbersFromCommitMessage` from
  `src/github/linked-issues.ts`;
* the issue-resolution / deduplication and label-gating logic of `run` and the
  per-issue pipeline `processIssue` from `src/index.ts`;
* the polling loop `pollForCompletion` / `getJobStatus` of `src/api/run-test.ts`.

Modelling conventions:

* JavaScript numbers that are used as issue numbers / counters are modelled as
  `Nat`; monetary amounts (`costUsd`) as `Rat` (only `+` is used on them).
  `parseInt` results are modelled exactly (no 2^53 float rounding).
* `async` calls that may throw are modelled by a `Step` outcome supplied by an
  environment: each per-issue external call (analysis, job run, comment post,
  state mutation) is a field of `IssueEnv`; HTTP fetches of the polling loop
  are an oracle `Nat → HttpOutcome` giving the outcome of the i-th fetch.
* Wall-clock time in the polling loop advances only through the 60 s sleeps
  (fetches are instantaneous), so elapsed time before fetch `i` is
  `i * POLL_INTERVAL_MS`.
* JavaScript string case folding (`toLowerCase`) is modelled on ASCII letters
  (`lowerChar`); regex character classes `\s` and `\d` are modelled by
  `isJsSpace` (common whitespace code points) and `isDigitChar`.
-/

namespace IssueTester

/-! ## Characters and strings -/

/-- ASCII model of JavaScript `String.prototype.toLowerCase` applied to one
character: uppercase ASCII letters are shifted by 32, all else unchanged. -/
def lowerChar (c : Char) : Char :=
  if 65 ≤ c.toNat ∧ c.toNat ≤ 90 then Char.ofNat (c.toNat + 32) else c

/-- `toLowerCase` on a whole string. -/
def lowerStr (s : String) : String := ⟨s.data.map lowerChar⟩

/-- The regex class `\d` (ASCII digits). -/
def isDigitChar (c : Char) : Bool := 48 ≤ c.toNat && c.toNat ≤ 57

/-- The regex class `\s`, restricted to the whitespace code points that occur in
practice (ASCII whitespace plus NBSP, line/paragraph separator and BOM). -/
def isJsSpace (c : Char) : Bool :=
  c == ' ' || c == '\t' || c == '\n' || c == '\r' || c == '\x0b' || c == '\x0c' ||
  c == '\u00A0' || c == '\u2028' || c == '\u2029' || c == '\uFEFF'

/-- Numeric value of a list of ASCII digits (the digit group handed to
`parseInt(match[1], 10)` by the built-in pattern). -/
def natOfDigits (ds : List Char) : Nat :=
  ds.foldl (fun a c => 10 * a + (c.toNat - 48)) 0

/-- JavaScript `x || y` on nullable strings: `null` and `""` are falsy. -/
def jsOrOpt (a b : Option String) : Option String :=
  match a with
  | some s => if s = "" then b else some s
  | none => b

/-- JavaScript `x || d` where `d` is a plain string default. -/
def jsOrStr (a : Option String) (d : String) : String :=
  match a with
  | some s => if s = "" then d else s
  | none => d

/-- Truthiness of a nullable string. -/
def truthyOpt (a : Option String) : Bool :=
  match a with
  | some s => s ≠ ""
  | none => false

/-! ## Data model (src/types.ts) -/

/-- Issue state from the GitHub API (`'OPEN' | 'CLOSED'`). -/
inductive IssueState
  | OPEN
  | CLOSED
deriving DecidableEq

/-- A label of an issue (`{ name: string }`). -/
structure IssueLabel where
  name : String
deriving DecidableEq

/-- `LinkedIssue` from `src/types.ts`. -/
structure LinkedIssue where
  number : Nat
  title : String := ""
  body : String := ""
  state : IssueState := .OPEN
  labels : List IssueLabel := []
deriving DecidableEq

/-- `AnalyzeIssueResponse` from `src/types.ts`; the `outputSchema` record is
kept as an association list of field name to (type, description). -/
structure AnalyzeIssueResponse where
  isTestable : Bool
  reason : Option String := none
  testUrl : Option String := none
  testInstructions : String := ""
  outputSchema : List (String × String × String) := []
  confidence : Rat := 0
deriving DecidableEq

/-- `ExtractedResult` from `src/types.ts`; the `data` record is kept as an
association list with values rendered abstractly as strings. -/
structure ExtractedResult where
  success : Bool
  explanation : String := ""
  data : List (String × String) := []
deriving DecidableEq

/-- Job status values of `JobStatusResponse.status` in `src/api/run-test.ts`. -/
inductive JobStatus
  | pending
  | in_progress
  | completed
  | error
  | abandoned
  | incomplete
deriving DecidableEq

/-- The wire string of a job status. -/
def JobStatus.str : JobStatus → String
  | .pending => "pending"
  | .in_progress => "in_progress"
  | .completed => "completed"
  | .error => "error"
  | .abandoned => "abandoned"
  | .incomplete => "incomplete"

/-- `QATestResponse` from `src/types.ts` (the shape `runQATest` returns). -/
structure QATestResponse where
  status : JobStatus
  result : Option ExtractedResult := none
  error : Option String := none
  costUsd : Option Rat := none
  testDurationSeconds : Option Rat := none
  jobId : Option String := none
deriving DecidableEq

/-- Per-issue record status (`'tested' | 'skipped' | 'error'`). -/
inductive ResultStatus
  | tested
  | skipped
  | error
deriving DecidableEq

/-- `IssueTestResult` from `src/types.ts`. -/
structure IssueTestResult where
  issueNumber : Nat
  status : ResultStatus
  passed : Bool
  testResult : Option QATestResponse := none
  analysis : Option AnalyzeIssueResponse := none
  error : Option String := none
  skipReason : Option String := none
deriving DecidableEq

/-- `ActionResults` from `src/types.ts`. -/
structure ActionResults where
  testedIssues : List Nat := []
  passedIssues : List Nat := []
  failedIssues : List Nat := []
  skippedIssues : List Nat := []
  totalCostUsd : Rat := 0
  results : List IssueTestResult := []
deriving DecidableEq

/-- The empty aggregate that `run` starts from. -/
def emptyResults : ActionResults := {}

/-- `ParsedInputs` from `src/types.ts`, with the defaults of `action.yml`. -/
structure ParsedInputs where
  apiKey : String := ""
  githubToken : String := ""
  apiUrl : String := "https://runhuman.com"
  qaLabel : String := "qa-test"
  autoDetect : Bool := true
  targetDurationMinutes : Nat := 5
  reopenOnFailure : Bool := true
  failureLabel : String := "qa-failed"
  removeFailureLabelOnSuccess : Bool := true
  issueNumber : Option Nat := none
  testUrl : Option String := none
  issuePattern : Option String := none
deriving DecidableEq

/-! ## hasLabel (src/github/linked-issues.ts, lines 125-127) -/

/-- `hasLabel`: some label name equals the configured name after `toLowerCase`
on both sides. -/
def hasLabel (issue : LinkedIssue) (labelName : String) : Bool :=
  issue.labels.any fun l => lowerStr l.name == lowerStr labelName

/-! ## Issue resolution / deduplication (src/index.ts, run, lines 191-201) -/

/-- `Map.set`: overwrite the entry with the same issue number in place, else
append (JavaScript `Map` keeps insertion order and updates in place). -/
def insertSet (m : List LinkedIssue) (i : LinkedIssue) : List LinkedIssue :=
  if m.any fun j => j.number == i.number then
    m.map fun j => if j.number == i.number then i else j
  else m ++ [i]

/-- Guarded insert used for commit-message issues: only added when the number
is not yet present (`if (!issueMap.has(issue.number))`). -/
def insertIfAbsent (m : List LinkedIssue) (i : LinkedIssue) : List LinkedIssue :=
  if m.any fun j => j.number == i.number then m else m ++ [i]

/-- The deduplication of `run`: PR-linked issues are `Map.set` first, then
commit-message issues are added only when absent; the result is the map's
values in insertion order. -/
def resolveIssues (prLinked commitIssues : List LinkedIssue) : List LinkedIssue :=
  commitIssues.foldl insertIfAbsent (prLinked.foldl insertSet [])

/-- The issue numbers of a list of issues. -/
def numbersOf (l : List LinkedIssue) : List Nat := l.map LinkedIssue.number

/-- Is some issue with number `n` present? -/
def hasNum (l : List LinkedIssue) (n : Nat) : Prop := n ∈ numbersOf l

/-- First entry carrying number `n` (the map lookup). -/
def lookupNum (l : List LinkedIssue) (n : Nat) : Option LinkedIssue :=
  l.find? fun i => i.number == n

instance (l : List LinkedIssue) (n : Nat) : Decidable (hasNum l n) := by
  unfold hasNum; infer_instance

/-! ## Per-issue processing (src/index.ts, processIssue, lines 281-394)

Each awaited external call is abstracted by a `Step` outcome: `ok` is normal
return, `throw` is a raised exception with its message. -/

/-- Outcome of one awaited external call. -/
inductive Step (α : Type)
  | ok (val : α)
  | throw (msg : String)
deriving DecidableEq

/-- The outcomes of the external calls `processIssue` makes for one issue,
in source order: `analyzeIssue`, `runQATest`, `postTestResultComment`,
`ensureIssueClosed`, `removeLabel`, `reopenIssue`, `addLabel`. -/
structure IssueEnv where
  analyze : Step AnalyzeIssueResponse
  runTest : Step QATestResponse
  postComment : Step Unit := .ok ()
  ensureClosed : Step Unit := .ok ()
  removeFailLabel : Step Unit := .ok ()
  reopen : Step Unit := .ok ()
  addFailLabel : Step Unit := .ok ()

/-- `result.passed = testResult.result?.success ?? false`
(src/index.ts line 350; the same expression computes `passed` in
`buildTestResultComment`, src/templates/comment-template.ts line 10). -/
def passedOf (t : QATestResponse) : Bool :=
  match t.result with
  | some r => r.success
  | none => false

/-- The skip paths: push the issue number on `skippedIssues` and the record on
`results`. -/
def pushSkip (n : Nat) (rec : IssueTestResult) (res : ActionResults) : ActionResults :=
  { res with skippedIssues := res.skippedIssues ++ [n], results := res.results ++ [rec] }

/-- The catch block (src/index.ts lines 386-393): the record's status is
overwritten with `'error'`, the message stored, and only `results` receives
the record. -/
def pushCatch (rec : IssueTestResult) (msg : String) (res : ActionResults) : ActionResults :=
  { res with results := res.results ++ [{ rec with status := .error, error := some msg }] }

/-- End of the successful path (lines 384-385): push onto `testedIssues` and
`results`. -/
def finishTested (n : Nat) (rec : IssueTestResult) (res : ActionResults) : ActionResults :=
  { res with testedIssues := res.testedIssues ++ [n], results := res.results ++ [rec] }

/-- `if (testResult.costUsd) results.totalCostUsd += testResult.costUsd`
(`0` is falsy). -/
def addCost (res : ActionResults) (t : QATestResponse) : ActionResults :=
  match t.costUsd with
  | some c => if c ≠ 0 then { res with totalCostUsd := res.totalCostUsd + c } else res
  | none => res

/-- `processIssue` (src/index.ts lines 281-394): analyze, gate on testability
and test URL, run the QA job, post the comment, mutate issue state, and record
the per-issue outcome; any exception lands in the catch block. -/
def processIssue (issue : LinkedIssue) (inputs : ParsedInputs) (env : IssueEnv)
    (res : ActionResults) : ActionResults :=
  let n := issue.number
  let result0 : IssueTestResult := { issueNumber := n, status := .skipped, passed := false }
  match env.analyze with
  | .throw m => pushCatch result0 m res
  | .ok analysis0 =>
    let result1 := { result0 with analysis := some analysis0 }
    if analysis0.isTestable = false then
      pushSkip n { result1 with
        skipReason := some (jsOrStr analysis0.reason "Not testable by human") } res
    else
      let testUrlOpt := jsOrOpt inputs.testUrl analysis0.testUrl
      if truthyOpt testUrlOpt = false then
        pushSkip n { result1 with
          skipReason := some "No testable URL found in issue (provide test-url input to override)" } res
      else
        let analysis1 := { analysis0 with testUrl := testUrlOpt }
        let result2 := { result1 with analysis := some analysis1 }
        match env.runTest with
        | .throw m => pushCatch result2 m res
        | .ok tr =>
          let result3 := { result2 with
            testResult := some tr, status := .tested, passed := passedOf tr }
          let res1 := addCost res tr
          match env.postComment with
          | .throw m => pushCatch result3 m res1
          | .ok _ =>
            if result3.passed then
              let res2 := { res1 with passedIssues := res1.passedIssues ++ [n] }
              match env.ensureClosed with
              | .throw m => pushCatch result3 m res2
              | .ok _ =>
                match (if inputs.removeFailureLabelOnSuccess ∧ inputs.failureLabel ≠ "" then
                        env.removeFailLabel else .ok ()) with
                | .throw m => pushCatch result3 m res2
                | .ok _ => finishTested n result3 res2
            else
              let res2 := { res1 with failedIssues := res1.failedIssues ++ [n] }
              match (if inputs.reopenOnFailure then env.reopen else .ok ()) with
              | .throw m => pushCatch result3 m res2
              | .ok _ =>
                match (if inputs.failureLabel ≠ "" then env.addFailLabel else .ok ()) with
                | .throw m => pushCatch result3 m res2
                | .ok _ => finishTested n result3 res2

/-- The sequential loop of `run` over the issues to process
(src/index.ts lines 253-255). -/
def processAll (issues : List LinkedIssue) (inputs : ParsedInputs)
    (env : Nat → IssueEnv) (res : ActionResults) : ActionResults :=
  issues.foldl (fun r issue => processIssue issue inputs (env issue.number) r) res

/-! ## Label gating (src/index.ts, run, lines 216-247) -/

/-- The record pushed for an issue skipped by the label gate. -/
def missingLabelRecord (inputs : ParsedInputs) (issue : LinkedIssue) : IssueTestResult :=
  { issueNumber := issue.number, status := .skipped, passed := false,
    skipReason := some ("Missing \"" ++ inputs.qaLabel ++ "\" label") }

/-- The for-loop over unlabeled issues in the no-auto-detect branch. -/
def gateSkip (inputs : ParsedInputs) (unlabeled : List LinkedIssue)
    (res : ActionResults) : ActionResults :=
  unlabeled.foldl (fun r issue =>
    { r with skippedIssues := r.skippedIssues ++ [issue.number],
             results := r.results ++ [missingLabelRecord inputs issue] }) res

/-- Label gating: labeled issues are always processed; unlabeled ones are
processed only when auto-detect is enabled, otherwise they are recorded as
skipped. Returns the issues to process and the aggregate holding the skip
records. -/
def gateIssues (inputs : ParsedInputs) (linked : List LinkedIssue) :
    List LinkedIssue × ActionResults :=
  let labeled := linked.filter fun i => hasLabel i inputs.qaLabel
  let unlabeled := linked.filter fun i => !(hasLabel i inputs.qaLabel)
  if inputs.autoDetect ∧ 0 < unlabeled.length then
    (labeled ++ unlabeled, emptyResults)
  else
    (labeled, gateSkip inputs unlabeled emptyResults)

/-- The PR-merge flow of `run` after the linked issues of both sources are
fetched (src/index.ts lines 191-255): dedup, label-gate, then process each
surviving issue sequentially. -/
def runCore (prLinked commitIssues : List LinkedIssue) (inputs : ParsedInputs)
    (env : Nat → IssueEnv) : ActionResults :=
  let linked := resolveIssues prLinked commitIssues
  let gated := gateIssues inputs linked
  processAll gated.1 inputs env gated.2

/-! ## Job polling (src/api/run-test.ts, lines 36-182) -/

/-- `JobStatusResponse` of src/api/run-test.ts (tester metadata fields that no
claim touches are kept as plain optional strings). -/
structure JobStatusResponse where
  id : String := ""
  status : JobStatus
  result : Option ExtractedResult := none
  error : Option String := none
  reason : Option String := none
  costUsd : Option Rat := none
  testDurationSeconds : Option Rat := none
deriving DecidableEq

/-- `TERMINAL_STATES` (line 37). -/
def TERMINAL_STATES : List String := ["completed", "error", "abandoned", "incomplete"]

/-- `TERMINAL_STATES.includes(status.status)`. -/
def isTerminal (s : JobStatus) : Bool := TERMINAL_STATES.contains s.str

/-- `POLL_INTERVAL_MS` (line 40). -/
def POLL_INTERVAL_MS : Nat := 60000

/-- `MAX_POLL_DURATION_MS` (line 41). -/
def MAX_POLL_DURATION_MS : Nat := 20 * 60 * 1000

/-- Outcome of one `fetch` of the job status endpoint, as `getJobStatus`
distinguishes them: a network-level failure (the `fetch` promise rejects), an
HTTP-level failure (non-2xx response, with status code, status text and body),
or a parsed 2xx response. -/
inductive HttpOutcome
  | netFail (msg : String)
  | httpFail (code : Nat) (statusText : String) (body : String)
  | ok (st : JobStatusResponse)
deriving DecidableEq

/-- `getJobStatus` (lines 104-146): wraps each failure mode in a thrown error
with a distinguishing message and returns the parsed body on success. -/
def getJobStatus (jobId : String) (o : HttpOutcome) : Step JobStatusResponse :=
  match o with
  | .netFail m => .throw ("Network error checking job status: " ++ m)
  | .httpFail code statusText body =>
    if code == 404 then .throw ("Job " ++ jobId ++ " not found")
    else .throw ("Failed to get job status (" ++ toString code ++ "): " ++
      (if body = "" then statusText else body))
  | .ok st => .ok st

/-- The timeout error of `pollForCompletion` (lines 163-166). -/
def timeoutMessage (jobId lastStatus : String) : String :=
  "Job " ++ jobId ++ " did not complete within 20 minutes. " ++
  "Last status: " ++ lastStatus ++ ". The job may still be running - check the RunHuman dashboard."

/-- The `while (true)` loop of `pollForCompletion` (lines 159-181), written
with fuel so that it computes by reduction. `i` counts completed sleeps, so
elapsed time before fetch `i` is `i * POLL_INTERVAL_MS`; the loop runs at most
21 iterations before the elapsed check fires, hence fuel 22 makes the fuel-0
case unreachable (it returns the same timeout error the real loop would raise
at `i = 22`). -/
def pollStepFuel (oracle : Nat → HttpOutcome) (jobId : String) :
    Nat → Nat → String → Step JobStatusResponse
  | 0, _, lastStatus => .throw (timeoutMessage jobId lastStatus)
  | fuel + 1, i, lastStatus =>
    if i * POLL_INTERVAL_MS > MAX_POLL_DURATION_MS then
      .throw (timeoutMessage jobId lastStatus)
    else
      match getJobStatus jobId (oracle i) with
      | .throw m => .throw m
      | .ok st =>
        if isTerminal st.status then .ok st
        else pollStepFuel oracle jobId fuel (i + 1) st.status.str

/-- `pollForCompletion` (lines 151-182): start at elapsed 0 with empty
`lastStatus`. -/
def pollForCompletion (oracle : Nat → HttpOutcome) (jobId : String) :
    Step JobStatusResponse :=
  pollStepFuel oracle jobId 22 0 ""

/-! ## Commit-message issue extraction (src/github/linked-issues.ts, 134-165)

The built-in pattern `/(?:close[sd]?|fix(?:e[sd])?|resolve[sd]?)\s*#(\d+)/gi`
is embedded as a deterministic scanner with the exact backtracking order of
the regex engine; `matchAll` semantics: scan left to right, resume after each
match's end. -/

/-- Case-insensitive literal prefix match: `pat` is given in lowercase, the
subject character is lowered before comparison; returns the rest on success. -/
def matchPrefixCI : List Char → List Char → Option (List Char)
  | [], l => some l
  | _ :: _, [] => none
  | p :: ps, c :: cs => if lowerChar c = p then matchPrefixCI ps cs else none

/-- The tail `\s*#(\d+)` of the built-in pattern: greedy whitespace, a literal
`#`, then a nonempty greedy digit group; returns the group's value and the
rest after the match. Greediness is exact because `#` is not whitespace and
nothing follows the digit group. -/
def matchTail (l : List Char) : Option (Nat × List Char) :=
  match l.dropWhile isJsSpace with
  | c :: l2 =>
    if c = '#' then
      if (l2.takeWhile isDigitChar).isEmpty then none
      else some (natOfDigits (l2.takeWhile isDigitChar), l2.dropWhile isDigitChar)
    else none
  | [] => none

/-- `[sd]?` after `close`/`resolve`: the greedy optional suffix is tried first,
and on failure of the rest of the pattern the engine backtracks to the empty
alternative. -/
def matchSuffixSD (l : List Char) : Option (Nat × List Char) :=
  match l with
  | c :: cs =>
    if lowerChar c = 's' ∨ lowerChar c = 'd' then
      match matchTail cs with
      | some r => some r
      | none => matchTail l
    else matchTail l
  | [] => matchTail l

/-- `(?:e[sd])?` after `fix`: greedy two-character optional suffix with
backtracking. -/
def matchSuffixESD (l : List Char) : Option (Nat × List Char) :=
  match l with
  | c1 :: c2 :: cs =>
    if lowerChar c1 = 'e' ∧ (lowerChar c2 = 's' ∨ lowerChar c2 = 'd') then
      match matchTail cs with
      | some r => some r
      | none => matchTail l
    else matchTail l
  | _ => matchTail l

/-- One attempt of the built-in pattern at the current position: the three
alternation branches in source order (they start with distinct letters, so at
most one can fire). -/
def tryMatchAt (l : List Char) : Option (Nat × List Char) :=
  match matchPrefixCI ['c', 'l', 'o', 's', 'e'] l with
  | some rest => matchSuffixSD rest
  | none =>
    match matchPrefixCI ['f', 'i', 'x'] l with
    | some rest => matchSuffixESD rest
    | none =>
      match matchPrefixCI ['r', 'e', 's', 'o', 'l', 'v', 'e'] l with
      | some rest => matchSuffixSD rest
      | none => none

/-- `matchAll` scanning with fuel (every match consumes at least one
character, so `l.length` fuel suffices). -/
def scanFuel : Nat → List Char → List Nat
  | 0, _ => []
  | _, [] => []
  | fuel + 1, c :: cs =>
    match tryMatchAt (c :: cs) with
    | some (n, rest) => n :: scanFuel fuel rest
    | none => scanFuel fuel cs

/-- All digit groups matched by the built-in pattern, in match order. -/
def scanDefault (l : List Char) : List Nat := scanFuel l.length l

/-- `Set.add`: insertion-ordered, first occurrence kept. -/
def insertNum (l : List Nat) (n : Nat) : List Nat :=
  if l.contains n then l else l ++ [n]

/-- The `issueNumbers` set after the built-in pattern's matches are added. -/
def defaultNums (l : List Char) : List Nat :=
  (scanDefault l).foldl insertNum []

/-- One `matchAll` match of the custom pattern, abstracting the regex engine:
the full match text and, when the pattern has a first capture group that
participated in the match, its captured text (`none` both when the pattern has
no group and when the group did not participate). -/
structure JsMatch where
  full : String
  group1 : Option String := none
deriving DecidableEq

/-- `const numStr = match[1] || match[0]` — JavaScript `||`, so an empty or
absent capture falls back to the full match text. -/
def matchNumSource (m : JsMatch) : String :=
  match m.group1 with
  | some g => if g = "" then m.full else g
  | none => m.full

/-- JavaScript `parseInt(s, 10)`: skip leading whitespace, optional sign, then
the longest digit prefix; `none` models `NaN`. Values are exact naturals (no
float rounding). -/
def parseIntJs (s : String) : Option Int :=
  match s.data.dropWhile isJsSpace with
  | [] => none
  | c :: rest =>
    if c = '+' then
      let ds := rest.takeWhile isDigitChar
      if ds.isEmpty then none else some (natOfDigits ds)
    else if c = '-' then
      let ds := rest.takeWhile isDigitChar
      if ds.isEmpty then none else some (-(natOfDigits ds : Int))
    else
      let ds := (c :: rest).takeWhile isDigitChar
      if ds.isEmpty then none else some (natOfDigits ds)

/-- The custom-pattern loop (lines 151-158): for each match, parse the number
source and add it to the set when it is a positive number; everything else is
dropped without error. -/
def addCustomMatches (acc : List Nat) (ms : List JsMatch) : List Nat :=
  ms.foldl (fun a m =>
    match parseIntJs (matchNumSource m) with
    | some k => if 0 < k then insertNum a k.toNat else a
    | none => a) acc

/-- `parseIssueNumbersFromCommitMessage` (lines 134-165). The default pattern
is always applied; the custom pattern's matches, when a compilable pattern was
supplied, are abstracted as `some ms` (`none` covers both no pattern and the
caught compile failure, which leaves only the built-in matches). -/
def parseIssueNumbersFromCommitMessage (message : String)
    (customMatches : Option (List JsMatch)) : List Nat :=
  match customMatches with
  | some ms => addCustomMatches (defaultNums message.data) ms
  | none => defaultNums message.data

/-! ## Basic facts about the accumulator operations -/

@[simp] lemma pushSkip_tested (n : Nat) (rec : IssueTestResult) (res : ActionResults) :
    (pushSkip n rec res).testedIssues = res.testedIssues := rfl

@[simp] lemma pushSkip_passed (n : Nat) (rec : IssueTestResult) (res : ActionResults) :
    (pushSkip n rec res).passedIssues = res.passedIssues := rfl

@[simp] lemma pushSkip_failed (n : Nat) (rec : IssueTestResult) (res : ActionResults) :
    (pushSkip n rec res).failedIssues = res.failedIssues := rfl

@[simp] lemma pushSkip_skipped (n : Nat) (rec : IssueTestResult) (res : ActionResults) :
    (pushSkip n rec res).skippedIssues = res.skippedIssues ++ [n] := rfl

@[simp] lemma pushSkip_results (n : Nat) (rec : IssueTestResult) (res : ActionResults) :
    (pushSkip n rec res).results = res.results ++ [rec] := rfl

@[simp] lemma pushCatch_tested (rec : IssueTestResult) (m : String) (res : ActionResults) :
    (pushCatch rec m res).testedIssues = res.testedIssues := rfl

@[simp] lemma pushCatch_passed (rec : IssueTestResult) (m : String) (res : ActionResults) :
    (pushCatch rec m res).passedIssues = res.passedIssues := rfl

@[simp] lemma pushCatch_failed (rec : IssueTestResult) (m : String) (res : ActionResults) :
    (pushCatch rec m res).failedIssues = res.failedIssues := rfl

@[simp] lemma pushCatch_skipped (rec : IssueTestResult) (m : String) (res : ActionResults) :
    (pushCatch rec m res).skippedIssues = res.skippedIssues := rfl

@[simp] lemma pushCatch_results (rec : IssueTestResult) (m : String) (res : ActionResults) :
    (pushCatch rec m res).results =
      res.results ++ [{ rec with status := .error, error := some m }] := rfl

@[simp] lemma finishTested_tested (n : Nat) (rec : IssueTestResult) (res : ActionResults) :
    (finishTested n rec res).testedIssues = res.testedIssues ++ [n] := rfl

@[simp] lemma finishTested_passed (n : Nat) (rec : IssueTestResult) (res : ActionResults) :
    (finishTested n rec res).passedIssues = res.passedIssues := rfl

@[simp] lemma finishTested_failed (n : Nat) (rec : IssueTestResult) (res : ActionResults) :
    (finishTested n rec res).failedIssues = res.failedIssues := rfl

@[simp] lemma finishTested_skipped (n : Nat) (rec : IssueTestResult) (res : ActionResults) :
    (finishTested n rec res).skippedIssues = res.skippedIssues := rfl

@[simp] lemma finishTested_results (n : Nat) (rec : IssueTestResult) (res : ActionResults) :
    (finishTested n rec res).results = res.results ++ [rec] := rfl

@[simp] lemma addCost_tested (res : ActionResults) (t : QATestResponse) :
    (addCost res t).testedIssues = res.testedIssues := by
  unfold addCost; rcases t.costUsd with _ | c <;> simp <;> split <;> rfl

@[simp] lemma addCost_passed (res : ActionResults) (t : QATestResponse) :
    (addCost res t).passedIssues = res.passedIssues := by
  unfold addCost; rcases t.costUsd with _ | c <;> simp <;> split <;> rfl

@[simp] lemma addCost_failed (res : ActionResults) (t : QATestResponse) :
    (addCost res t).failedIssues = res.failedIssues := by
  unfold addCost; rcases t.costUsd with _ | c <;> simp <;> split <;> rfl

@[simp] lemma addCost_skipped (res : ActionResults) (t : QATestResponse) :
    (addCost res t).skippedIssues = res.skippedIssues := by
  unfold addCost; rcases t.costUsd with _ | c <;> simp <;> split <;> rfl

@[simp] lemma addCost_results (res : ActionResults) (t : QATestResponse) :
    (addCost res t).results = res.results := by
  unfold addCost; rcases t.costUsd with _ | c <;> simp <;> split <;> rfl

/-! ## Per-issue effect summary

`processIssue` appends the issue's number to at most one of the passed /
failed / skipped category lists, appends it to `testedIssues` only together
with passed or failed, and always appends exactly one record to `results`. -/

/-- How one `processIssue` call may change the aggregate. -/
def SummarySpec (n : Nat) (res out : ActionResults) : Prop :=
  ∃ (p f s t : Bool) (rec : IssueTestResult),
    out.passedIssues = res.passedIssues ++ (if p then [n] else []) ∧
    out.failedIssues = res.failedIssues ++ (if f then [n] else []) ∧
    out.skippedIssues = res.skippedIssues ++ (if s then [n] else []) ∧
    out.testedIssues = res.testedIssues ++ (if t then [n] else []) ∧
    out.results = res.results ++ [rec] ∧
    (p = true → f = false ∧ s = false) ∧
    (f = true → s = false) ∧
    (t = true → p = true ∨ f = true)

lemma summary_catch (n : Nat) (rec : IssueTestResult) (m : String) (res : ActionResults) :
    SummarySpec n res (pushCatch rec m res) :=
  ⟨false, false, false, false, { rec with status := .error, error := some m },
    by simp, by simp, by simp, by simp, by simp, by simp, by simp, by simp⟩

lemma summary_catch_cost (n : Nat) (rec : IssueTestResult) (m : String)
    (res : ActionResults) (tr : QATestResponse) :
    SummarySpec n res (pushCatch rec m (addCost res tr)) :=
  ⟨false, false, false, false, { rec with status := .error, error := some m },
    by simp, by simp, by simp, by simp, by simp, by simp, by simp, by simp⟩

lemma summary_skip (n : Nat) (rec : IssueTestResult) (res : ActionResults) :
    SummarySpec n res (pushSkip n rec res) :=
  ⟨false, false, true, false, rec,
    by simp, by simp, by simp, by simp, by simp, by simp, by simp, by simp⟩

lemma summary_catch_passed (n : Nat) (rec : IssueTestResult) (m : String)
    (res : ActionResults) (tr : QATestResponse) :
    SummarySpec n res (pushCatch rec m
      { addCost res tr with passedIssues := (addCost res tr).passedIssues ++ [n] }) :=
  ⟨true, false, false, false, { rec with status := .error, error := some m },
    by simp, by simp, by simp, by simp, by simp, by simp, by simp, by simp⟩

lemma summary_finish_passed (n : Nat) (rec : IssueTestResult)
    (res : ActionResults) (tr : QATestResponse) :
    SummarySpec n res (finishTested n rec
      { addCost res tr with passedIssues := (addCost res tr).passedIssues ++ [n] }) :=
  ⟨true, false, false, true, rec,
    by simp, by simp, by simp, by simp, by simp, by simp, by simp, by simp⟩

lemma summary_catch_failed (n : Nat) (rec : IssueTestResult) (m : String)
    (res : ActionResults) (tr : QATestResponse) :
    SummarySpec n res (pushCatch rec m
      { addCost res tr with failedIssues := (addCost res tr).failedIssues ++ [n] }) :=
  ⟨false, true, false, false, { rec with status := .error, error := some m },
    by simp, by simp, by simp, by simp, by simp, by simp, by simp, by simp⟩

lemma summary_finish_failed (n : Nat) (rec : IssueTestResult)
    (res : ActionResults) (tr : QATestResponse) :
    SummarySpec n res (finishTested n rec
      { addCost res tr with failedIssues := (addCost res tr).failedIssues ++ [n] }) :=
  ⟨false, true, false, true, rec,
    by simp, by simp, by simp, by simp, by simp, by simp, by simp, by simp⟩

/-- Every `processIssue` call satisfies the effect summary. -/
lemma processIssue_summary (issue : LinkedIssue) (inputs : ParsedInputs)
    (env : IssueEnv) (res : ActionResults) :
    SummarySpec issue.number res (processIssue issue inputs env res) := by
  obtain ⟨ea, er, epc, eec, erl, ero, eal⟩ := env
  unfold processIssue
  cases ea with
  | throw m => exact summary_catch _ _ _ _
  | ok a =>
    dsimp only
    split
    · exact summary_skip _ _ _
    · split
      · exact summary_skip _ _ _
      · cases er with
        | throw m => exact summary_catch _ _ _ _
        | ok tr =>
          dsimp only
          cases epc with
          | throw m => exact summary_catch_cost _ _ _ _ _
          | ok u =>
            dsimp only
            split
            · cases eec with
              | throw m => exact summary_catch_passed _ _ _ _ _
              | ok u2 =>
                dsimp only
                split
                · exact summary_catch_passed _ _ _ _ _
                · exact summary_finish_passed _ _ _ _
            · split
              · exact summary_catch_failed _ _ _ _ _
              · split
                · exact summary_catch_failed _ _ _ _ _
                · exact summary_finish_failed _ _ _ _

/-- The record built by the successful part of the tested path (just before
the comment is posted). -/
def testedRecord (issue : LinkedIssue) (inputs : ParsedInputs)
    (a : AnalyzeIssueResponse) (tr : QATestResponse) : IssueTestResult :=
  { issueNumber := issue.number, status := .tested, passed := passedOf tr,
    testResult := some tr,
    analysis := some { a with testUrl := jsOrOpt inputs.testUrl a.testUrl } }

/-- Once the analysis succeeded with a testable issue and a test URL and the
QA job ran, the single record appended for the issue carries the number, the
job response and the `passed` flag derived from it — whether or not a later
call throws. -/
lemma processIssue_tested_record (issue : LinkedIssue) (inputs : ParsedInputs)
    (env : IssueEnv) (res : ActionResults) (a : AnalyzeIssueResponse)
    (tr : QATestResponse)
    (ha : env.analyze = .ok a) (hT : a.isTestable = true)
    (hu : truthyOpt (jsOrOpt inputs.testUrl a.testUrl) = true)
    (hr : env.runTest = .ok tr) :
    ∃ rec, (processIssue issue inputs env res).results = res.results ++ [rec] ∧
      rec.issueNumber = issue.number ∧ rec.passed = passedOf tr ∧
      rec.testResult = some tr := by
  obtain ⟨ea, er, epc, eec, erl, ero, eal⟩ := env
  dsimp only at ha hr
  subst ha; subst hr
  unfold processIssue
  dsimp only
  rw [if_neg (by simp [hT]), if_neg (by simp [hu])]
  cases epc with
  | throw m =>
    exact ⟨{ testedRecord issue inputs a tr with status := .error, error := some m },
      by simp [testedRecord], rfl, rfl, rfl⟩
  | ok u =>
    dsimp only
    split
    · cases eec with
      | throw m =>
        exact ⟨{ testedRecord issue inputs a tr with status := .error, error := some m },
          by simp [testedRecord], rfl, rfl, rfl⟩
      | ok u2 =>
        dsimp only
        split
        · rename_i m heq
          exact ⟨{ testedRecord issue inputs a tr with status := .error, error := some m },
            by simp [testedRecord], rfl, rfl, rfl⟩
        · exact ⟨testedRecord issue inputs a tr, by simp [testedRecord], rfl, rfl, rfl⟩
    · split
      · rename_i m heq
        exact ⟨{ testedRecord issue inputs a tr with status := .error, error := some m },
          by simp [testedRecord], rfl, rfl, rfl⟩
      · split
        · rename_i m heq
          exact ⟨{ testedRecord issue inputs a tr with status := .error, error := some m },
            by simp [testedRecord], rfl, rfl, rfl⟩
        · exact ⟨testedRecord issue inputs a tr, by simp [testedRecord], rfl, rfl, rfl⟩

/-- When the comment post throws after the job ran, the appended record is the
tested record overwritten by the catch block. -/
lemma processIssue_comment_throw (issue : LinkedIssue) (inputs : ParsedInputs)
    (env : IssueEnv) (res : ActionResults) (a : AnalyzeIssueResponse)
    (tr : QATestResponse) (m : String)
    (ha : env.analyze = .ok a) (hT : a.isTestable = true)
    (hu : truthyOpt (jsOrOpt inputs.testUrl a.testUrl) = true)
    (hr : env.runTest = .ok tr) (hc : env.postComment = .throw m) :
    (processIssue issue inputs env res).results = res.results ++
      [{ testedRecord issue inputs a tr with status := .error, error := some m }] := by
  obtain ⟨ea, er, epc, eec, erl, ero, eal⟩ := env
  dsimp only at ha hr hc
  subst ha; subst hr; subst hc
  unfold processIssue
  dsimp only
  rw [if_neg (by simp [hT]), if_neg (by simp [hu])]
  simp [testedRecord]

/-- Every issue contributes exactly one record: the loop never aborts. -/
lemma processAll_results_length (issues : List LinkedIssue) (inputs : ParsedInputs)
    (env : Nat → IssueEnv) (res : ActionResults) :
    (processAll issues inputs env res).results.length =
      res.results.length + issues.length := by
  induction issues generalizing res with
  | nil => simp [processAll]
  | cons i is ih =>
    obtain ⟨p, f, s, t, rec, _, _, _, _, h5, _⟩ :=
      processIssue_summary i inputs (env i.number) res
    simp only [processAll, List.foldl_cons] at ih ⊢
    rw [ih, h5]
    simp; omega

/-! ## Claim C1 -/

/-- Claim C1, counterexample: the claim states that `passed` is true only when
the terminal status is `completed`, but `processIssue` and
`buildTestResultComment` compute `passed` as `testResult.result?.success ??
false` without consulting the status, so a record with terminal status
`abandoned` and a result payload with `success: true` gets `passed = true`
although its status is not `completed`. -/
theorem c1_counterexample :
    isTerminal (QATestResponse.status
      { status := .abandoned, result := some { success := true } }) = true ∧
    QATestResponse.status
      { status := .abandoned, result := some { success := true } } ≠ JobStatus.completed ∧
    passedOf { status := .abandoned, result := some { success := true } } = true := by
  refine ⟨by decide, by decide, rfl⟩

/-- Claim C1, amended: the per-issue `passed` flag is true iff the result
payload is present and its `success` field is true — the terminal status is
not consulted; in particular a missing result payload yields `passed = false`
for any terminal status, and the record appended by `processIssue` once the
job ran carries exactly this flag. -/
theorem c1_passed_derivation :
    (∀ t : QATestResponse, passedOf t = true ↔ ∃ r, t.result = some r ∧ r.success = true) ∧
    (∀ (issue : LinkedIssue) (inputs : ParsedInputs) (env : IssueEnv)
        (res : ActionResults) (a : AnalyzeIssueResponse) (tr : QATestResponse),
      env.analyze = .ok a → a.isTestable = true →
      truthyOpt (jsOrOpt inputs.testUrl a.testUrl) = true → env.runTest = .ok tr →
      ∃ rec, (processIssue issue inputs env res).results = res.results ++ [rec] ∧
        rec.passed = passedOf tr) := by
  constructor
  · intro t
    unfold passedOf
    cases h : t.result with
    | none => simp
    | some r =>
      simp only [Option.some.injEq]
      constructor
      · intro hs; exact ⟨r, rfl, hs⟩
      · rintro ⟨r2, rfl, hs⟩; exact hs
  · intro issue inputs env res a tr ha hT hu hr
    obtain ⟨rec, h1, _, h3, _⟩ :=
      processIssue_tested_record issue inputs env res a tr ha hT hu hr
    exact ⟨rec, h1, h3⟩

/-- Claim C1, witness for the amended theorem at a concrete passing record and
a concrete `processIssue` run. -/
theorem c1_witness :
    (passedOf { status := .completed, result := some { success := true } } = true) ∧
    (∃ rec, (processIssue { number := 5 } {}
        { analyze := .ok { isTestable := true, testUrl := some "https://x" },
          runTest := .ok { status := .completed, result := some { success := true } } }
        emptyResults).results = emptyResults.results ++ [rec] ∧
      rec.passed = passedOf { status := .completed, result := some { success := true } }) := by
  constructor
  · exact (c1_passed_derivation.1 _).mpr ⟨_, rfl, rfl⟩
  · exact c1_passed_derivation.2 { number := 5 } {}
      { analyze := .ok { isTestable := true, testUrl := some "https://x" },
        runTest := .ok { status := .completed, result := some { success := true } } }
      emptyResults _ _ rfl rfl (by decide) rfl

/-! ## Claim C4 -/

/-- Claim C4, counterexample: the claim states that an exception raised after
the job was created (here: the comment post fails) leaves the per-issue record
classified as tested; in the code the catch block overwrites the status with
`'error'`, so the single record of this run — whose environment dispatched the
job successfully — has status `error`, not `tested`. -/
theorem c4_counterexample :
    (processIssue { number := 5 } {}
      { analyze := .ok { isTestable := true, testUrl := some "https://example.com" },
        runTest := .ok { status := .completed, result := some { success := true } },
        postComment := .throw "comment post failed" }
      emptyResults).results.map IssueTestResult.status = [ResultStatus.error] := by
  decide

/-- Claim C4, amended: an exception raised after the job was created (e.g.
while posting the result comment) is caught per-issue and recorded as
status = `error` with the error message — it overwrites the tested
classification, though the job response stays on the record — and a per-issue
failure never aborts processing of the remaining issues: every issue of the
loop contributes exactly one record. -/
theorem c4_post_dispatch_error :
    (∀ (issue : LinkedIssue) (inputs : ParsedInputs) (env : IssueEnv)
        (res : ActionResults) (a : AnalyzeIssueResponse) (tr : QATestResponse)
        (m : String),
      env.analyze = .ok a → a.isTestable = true →
      truthyOpt (jsOrOpt inputs.testUrl a.testUrl) = true → env.runTest = .ok tr →
      env.postComment = .throw m →
      ∃ rec, (processIssue issue inputs env res).results = res.results ++ [rec] ∧
        rec.status = .error ∧ rec.error = some m ∧ rec.testResult = some tr) ∧
    (∀ (issues : List LinkedIssue) (inputs : ParsedInputs) (env : Nat → IssueEnv)
        (res : ActionResults),
      (processAll issues inputs env res).results.length =
        res.results.length + issues.length) := by
  constructor
  · intro issue inputs env res a tr m ha hT hu hr hc
    refine ⟨{ testedRecord issue inputs a tr with status := .error, error := some m },
      processIssue_comment_throw issue inputs env res a tr m ha hT hu hr hc, rfl, rfl, rfl⟩
  · exact processAll_results_length

/-- Claim C4, witness: the amended theorem applied to a concrete run whose
comment post fails, and to a concrete two-issue loop in which the first issue
errors. -/
theorem c4_witness :
    (∃ rec, (processIssue { number := 5 } {}
        { analyze := .ok { isTestable := true, testUrl := some "https://example.com" },
          runTest := .ok { status := .completed, result := some { success := true } },
          postComment := .throw "comment post failed" }
        emptyResults).results = emptyResults.results ++ [rec] ∧
      rec.status = .error ∧ rec.error = some "comment post failed" ∧
      rec.testResult = some { status := .completed, result := some { success := true } }) ∧
    (processAll [{ number := 5 }, { number := 6 }] {}
      (fun _ =>
        { analyze := .ok { isTestable := true, testUrl := some "https://example.com" },
          runTest := .ok { status := .completed, result := some { success := true } },
          postComment := .throw "comment post failed" })
      emptyResults).results.length = emptyResults.results.length + 2 := by
  constructor
  · exact c4_post_dispatch_error.1 { number := 5 } {}
      { analyze := .ok { isTestable := true, testUrl := some "https://example.com" },
        runTest := .ok { status := .completed, result := some { success := true } },
        postComment := .throw "comment post failed" }
      emptyResults _ _ _ rfl rfl (by decide) rfl rfl
  · exact c4_post_dispatch_error.2 [{ number := 5 }, { number := 6 }] {} _ emptyResults

/-! ## Polling lemmas (claims C3 and C5) -/

/-- The elapsed-budget guard fires exactly beyond iteration 20. -/
lemma poll_budget_iff (i : Nat) :
    (i * POLL_INTERVAL_MS > MAX_POLL_DURATION_MS) ↔ 21 ≤ i := by
  simp only [POLL_INTERVAL_MS, MAX_POLL_DURATION_MS]
  omega

/-- While fetches succeed with non-terminal statuses, a failing fetch at
iteration `k` within the budget ends the loop with exactly that error. -/
lemma pollStepFuel_throw (oracle : Nat → HttpOutcome) (jobId : String)
    (st : Nat → JobStatusResponse) (k : Nat) (m : String)
    (hk : k ≤ 20)
    (hpre : ∀ j, j < k → oracle j = .ok (st j) ∧ isTerminal (st j).status = false)
    (hfail : getJobStatus jobId (oracle k) = .throw m) :
    ∀ (fuel i : Nat) (last : String), fuel + i = 22 → i ≤ k →
      pollStepFuel oracle jobId fuel i last = .throw m := by
  intro fuel
  induction fuel with
  | zero => intro i last hfi hik; omega
  | succ fuel ih =>
    intro i last hfi hik
    rw [pollStepFuel]
    rw [if_neg (by rw [poll_budget_iff]; omega)]
    rcases Nat.lt_or_ge i k with hlt | hge
    · obtain ⟨hoj, hnt⟩ := hpre i hlt
      rw [hoj]
      simp only [getJobStatus]
      rw [hnt]
      simp only [Bool.false_eq_true, if_false]
      exact ih (i + 1) (st i).status.str (by omega) (by omega)
    · have : i = k := by omega
      subst this
      rw [hfail]

/-- While fetches succeed, reaching the first terminal status at iteration
`k ≤ 20` returns that status record. -/
lemma pollStepFuel_ok (oracle : Nat → HttpOutcome) (jobId : String)
    (st : Nat → JobStatusResponse) (k : Nat)
    (hk : k ≤ 20)
    (hok : ∀ j, j ≤ 20 → oracle j = .ok (st j))
    (hterm : isTerminal (st k).status = true)
    (hmin : ∀ j, j < k → isTerminal (st j).status = false) :
    ∀ (fuel i : Nat) (last : String), fuel + i = 22 → i ≤ k →
      pollStepFuel oracle jobId fuel i last = .ok (st k) := by
  intro fuel
  induction fuel with
  | zero => intro i last hfi hik; omega
  | succ fuel ih =>
    intro i last hfi hik
    rw [pollStepFuel]
    rw [if_neg (by rw [poll_budget_iff]; omega)]
    rw [hok i (by omega)]
    simp only [getJobStatus]
    rcases Nat.lt_or_ge i k with hlt | hge
    · rw [hmin i hlt]
      simp only [Bool.false_eq_true, if_false]
      exact ih (i + 1) (st i).status.str (by omega) (by omega)
    · have : i = k := by omega
      subst this
      rw [hterm]
      simp

/-- While fetches succeed but no terminal status arrives by iteration 20, the
loop raises the timeout error with the last observed status. -/
lemma pollStepFuel_timeout (oracle : Nat → HttpOutcome) (jobId : String)
    (st : Nat → JobStatusResponse)
    (hok : ∀ j, j ≤ 20 → oracle j = .ok (st j))
    (hnt : ∀ j, j ≤ 20 → isTerminal (st j).status = false) :
    ∀ (fuel i : Nat) (last : String), fuel + i = 22 → i ≤ 20 →
      pollStepFuel oracle jobId fuel i last =
        .throw (timeoutMessage jobId (st 20).status.str) := by
  intro fuel
  induction fuel with
  | zero => intro i last hfi hik; omega
  | succ fuel ih =>
    intro i last hfi hik
    rw [pollStepFuel]
    rw [if_neg (by rw [poll_budget_iff]; omega)]
    rw [hok i (by omega)]
    simp only [getJobStatus]
    rw [hnt i (by omega)]
    simp only [Bool.false_eq_true, if_false]
    rcases Nat.lt_or_ge i 20 with hlt | hge
    · exact ih (i + 1) (st i).status.str (by omega) (by omega)
    · have hi : i = 20 := by omega
      subst hi
      have hf : fuel = 1 := by omega
      subst hf
      rw [pollStepFuel]
      rw [if_pos (by decide)]

/-! ## Claim C3 -/

/-- Claim C3, counterexample: the claim states that a single status-fetch
failure does not terminate the poll loop; but with an oracle whose very first
fetch fails at the network level while every later fetch would return a
terminal `completed` record well within the budget, `pollForCompletion` ends
immediately with the network error instead of continuing to the terminal
status. -/
theorem c3_counterexample :
    pollForCompletion
      (fun i => if i = 0 then .netFail "getaddrinfo ENOTFOUND"
                else .ok { status := .completed }) "job-1"
      = .throw "Network error checking job status: getaddrinfo ENOTFOUND" ∧
    (fun (i : Nat) => if i = 0 then HttpOutcome.netFail "getaddrinfo ENOTFOUND"
        else HttpOutcome.ok { status := .completed }) 1
      = .ok { status := .completed } ∧
    isTerminal JobStatus.completed = true ∧
    1 * POLL_INTERVAL_MS ≤ MAX_POLL_DURATION_MS := by
  refine ⟨by decide, by decide, by decide, by decide⟩

/-- Claim C3, amended: a single status-fetch failure — network-level or
HTTP-level, both of which `getJobStatus` converts into a thrown error with a
distinguishing message — terminates the poll loop at once: if the first `k`
fetches return non-terminal statuses and fetch `k` (within the 20-minute
budget) fails, the loop ends with exactly that error. -/
theorem c3_fetch_failure_terminates :
    ∀ (oracle : Nat → HttpOutcome) (jobId : String) (k : Nat)
      (st : Nat → JobStatusResponse) (m : String),
      k ≤ 20 →
      (∀ j, j < k → oracle j = .ok (st j) ∧ isTerminal (st j).status = false) →
      getJobStatus jobId (oracle k) = .throw m →
      pollForCompletion oracle jobId = .throw m := by
  intro oracle jobId k st m hk hpre hfail
  exact pollStepFuel_throw oracle jobId st k m hk hpre hfail 22 0 "" rfl (by omega)

/-- Claim C3, witness: the amended theorem applied to an oracle whose third
fetch (after two pending statuses) fails with an HTTP 500. -/
theorem c3_witness :
    pollForCompletion
      (fun i => if i < 2 then .ok { status := .pending }
                else .httpFail 500 "Internal Server Error" "oops") "job-9"
      = .throw "Failed to get job status (500): oops" := by
  exact c3_fetch_failure_terminates
    (fun i => if i < 2 then .ok { status := .pending }
              else .httpFail 500 "Internal Server Error" "oops")
    "job-9" 2 (fun _ => { status := .pending }) "Failed to get job status (500): oops"
    (by omega) (by decide) (by decide)

/-! ## Claim C5 -/

/-- Claim C5: when every fetch succeeds, polling returns the fetched record
exactly when its status first lies in the terminal set
{completed, error, abandoned, incomplete} within the 21 in-budget fetches,
and otherwise — once elapsed time exceeds the 20-minute ceiling — raises a
distinct error whose message contains both the job id and the last observed
status. -/
theorem c5_poll_termination :
    ∀ (oracle : Nat → HttpOutcome) (jobId : String) (st : Nat → JobStatusResponse),
      (∀ i, i ≤ 20 → oracle i = .ok (st i)) →
      (∀ k, k ≤ 20 → isTerminal (st k).status = true →
        (∀ j, j < k → isTerminal (st j).status = false) →
        pollForCompletion oracle jobId = .ok (st k)) ∧
      ((∀ j, j ≤ 20 → isTerminal (st j).status = false) →
        pollForCompletion oracle jobId =
          .throw (timeoutMessage jobId (st 20).status.str) ∧
        (∃ x y, timeoutMessage jobId (st 20).status.str = x ++ (jobId ++ y)) ∧
        (∃ x y, timeoutMessage jobId (st 20).status.str =
          x ++ ((st 20).status.str ++ y))) := by
  intro oracle jobId st hok
  constructor
  · intro k hk hterm hmin
    exact pollStepFuel_ok oracle jobId st k hk hok hterm hmin 22 0 "" rfl (by omega)
  · intro hnt
    refine ⟨pollStepFuel_timeout oracle jobId st hok hnt 22 0 "" rfl (by omega), ?_, ?_⟩
    · refine ⟨"Job ", " did not complete within 20 minutes. " ++ "Last status: " ++
        (st 20).status.str ++ ". The job may still be running - check the RunHuman dashboard.", ?_⟩
      simp [timeoutMessage, String.append_assoc]
    · refine ⟨"Job " ++ jobId ++ " did not complete within 20 minutes. " ++ "Last status: ",
        ". The job may still be running - check the RunHuman dashboard.", ?_⟩
      simp [timeoutMessage, String.append_assoc]

/-- Claim C5, witness: a job that is pending twice and completes on the third
fetch, and a job that never leaves `in_progress` and times out with its id and
last status in the message. -/
theorem c5_witness :
    pollForCompletion (fun i => if i < 2 then .ok { status := .pending }
        else .ok { status := .completed }) "job-a"
      = .ok { status := .completed } ∧
    pollForCompletion (fun _ => .ok { status := .in_progress }) "job-b"
      = .throw (timeoutMessage "job-b" "in_progress") := by
  constructor
  · exact (c5_poll_termination
      (fun i => if i < 2 then .ok { status := .pending }
                else .ok { status := .completed }) "job-a"
      (fun i => if i < 2 then { status := .pending } else { status := .completed })
      (by intro i hi; by_cases h : i < 2 <;> simp [h])).1
      2 (by omega) (by decide) (by decide)
  · exact ((c5_poll_termination (fun _ => .ok { status := .in_progress }) "job-b"
      (fun _ => { status := .in_progress }) (fun _ _ => rfl)).2
      (fun _ _ => by decide)).1

/-! ## Resolver lemmas (claim C6) -/

lemma numbersOf_insertSet (m : List LinkedIssue) (i : LinkedIssue) :
    numbersOf (insertSet m i) =
      if m.any (fun j => j.number == i.number) then numbersOf m
      else numbersOf m ++ [i.number] := by
  unfold insertSet
  split
  · simp only [numbersOf, List.map_map]
    refine List.map_congr_left ?_
    intro j hj
    dsimp only [Function.comp]
    split
    · rename_i hbeq
      exact (beq_iff_eq.mp hbeq).symm
    · rfl
  · simp [numbersOf]

lemma hasNum_insertSet (m : List LinkedIssue) (i : LinkedIssue) (n : Nat) :
    hasNum (insertSet m i) n ↔ hasNum m n ∨ n = i.number := by
  unfold hasNum
  rw [numbersOf_insertSet]
  split
  · rename_i hany
    simp only [List.any_eq_true, beq_iff_eq] at hany
    obtain ⟨j, hj, hjn⟩ := hany
    constructor
    · exact Or.inl
    · rintro (h | rfl)
      · exact h
      · exact hjn ▸ List.mem_map_of_mem LinkedIssue.number hj
  · simp [numbersOf]

lemma hasNum_insertIfAbsent (m : List LinkedIssue) (i : LinkedIssue) (n : Nat) :
    hasNum (insertIfAbsent m i) n ↔ hasNum m n ∨ n = i.number := by
  unfold hasNum insertIfAbsent
  split
  · rename_i hany
    simp only [List.any_eq_true, beq_iff_eq] at hany
    obtain ⟨j, hj, hjn⟩ := hany
    constructor
    · exact Or.inl
    · rintro (h | rfl)
      · exact h
      · exact hjn ▸ List.mem_map_of_mem LinkedIssue.number hj
  · simp [numbersOf]

lemma hasNum_cons (i : LinkedIssue) (l : List LinkedIssue) (n : Nat) :
    hasNum (i :: l) n ↔ n = i.number ∨ hasNum l n := by
  simp [hasNum, numbersOf]

lemma hasNum_nil (n : Nat) : ¬ hasNum ([] : List LinkedIssue) n := by
  simp [hasNum, numbersOf]

lemma hasNum_foldl_insertSet (l : List LinkedIssue) :
    ∀ (b : List LinkedIssue) (n : Nat),
      hasNum (l.foldl insertSet b) n ↔ hasNum b n ∨ hasNum l n := by
  induction l with
  | nil => intro b n; simp [hasNum, numbersOf]
  | cons i is ih =>
    intro b n
    rw [List.foldl_cons, ih, hasNum_insertSet, hasNum_cons]
    tauto

lemma hasNum_foldl_insertIfAbsent (l : List LinkedIssue) :
    ∀ (b : List LinkedIssue) (n : Nat),
      hasNum (l.foldl insertIfAbsent b) n ↔ hasNum b n ∨ hasNum l n := by
  induction l with
  | nil => intro b n; simp [hasNum, numbersOf]
  | cons i is ih =>
    intro b n
    rw [List.foldl_cons, ih, hasNum_insertIfAbsent, hasNum_cons]
    tauto

lemma lookupNum_append_left (m l2 : List LinkedIssue) (n : Nat) (i0 : LinkedIssue)
    (h : lookupNum m n = some i0) : lookupNum (m ++ l2) n = some i0 := by
  unfold lookupNum at h ⊢
  rw [List.find?_append, h]
  rfl

lemma lookupNum_insertIfAbsent (m : List LinkedIssue) (i : LinkedIssue) (n : Nat)
    (i0 : LinkedIssue) (h : lookupNum m n = some i0) :
    lookupNum (insertIfAbsent m i) n = some i0 := by
  unfold insertIfAbsent
  split
  · exact h
  · exact lookupNum_append_left m [i] n i0 h

lemma lookupNum_foldl_insertIfAbsent (l : List LinkedIssue) :
    ∀ (b : List LinkedIssue) (n : Nat) (i0 : LinkedIssue),
      lookupNum b n = some i0 → lookupNum (l.foldl insertIfAbsent b) n = some i0 := by
  induction l with
  | nil => intro b n i0 h; exact h
  | cons i is ih =>
    intro b n i0 h
    rw [List.foldl_cons]
    exact ih _ n i0 (lookupNum_insertIfAbsent b i n i0 h)

/-! ## Claim C6 -/

/-- Claim C6: the resolver's result is the union by issue number of the
PR-linked set and the commit-message set, and since the PR-graph copies are
inserted first and commit copies are only added when the number is absent,
the entry that the PR map holds for a number is exactly the entry the resolved
set holds for it. -/
theorem c6_resolver_union :
    ∀ (prLinked commitIssues : List LinkedIssue) (n : Nat),
      (hasNum (resolveIssues prLinked commitIssues) n ↔
        hasNum prLinked n ∨ hasNum commitIssues n) ∧
      (∀ i, lookupNum (prLinked.foldl insertSet []) n = some i →
        lookupNum (resolveIssues prLinked commitIssues) n = some i) := by
  intro prLinked commitIssues n
  constructor
  · unfold resolveIssues
    rw [hasNum_foldl_insertIfAbsent, hasNum_foldl_insertSet]
    have : ¬ hasNum ([] : List LinkedIssue) n := hasNum_nil n
    tauto
  · intro i hi
    exact lookupNum_foldl_insertIfAbsent commitIssues _ n i hi

/-- Claim C6, witness: the PR-linked set {3, 5} and the commit-message set
{5, 7} resolve to exactly {3, 5, 7}, and the PR-sourced copy of issue 5 (the
one carrying the label data) is the retained entry. -/
theorem c6_witness :
    numbersOf (resolveIssues
      [{ number := 3 }, { number := 5, labels := [{ name := "qa-test" }] }]
      [{ number := 5 }, { number := 7 }]) = [3, 5, 7] ∧
    hasNum (resolveIssues
      [{ number := 3 }, { number := 5, labels := [{ name := "qa-test" }] }]
      [{ number := 5 }, { number := 7 }]) 7 ∧
    lookupNum (resolveIssues
      [{ number := 3 }, { number := 5, labels := [{ name := "qa-test" }] }]
      [{ number := 5 }, { number := 7 }]) 5 =
      some { number := 5, labels := [{ name := "qa-test" }] } := by
  refine ⟨by decide, ?_, ?_⟩
  · exact (c6_resolver_union
      [{ number := 3 }, { number := 5, labels := [{ name := "qa-test" }] }]
      [{ number := 5 }, { number := 7 }] 7).1.mpr (Or.inr (by decide))
  · exact (c6_resolver_union
      [{ number := 3 }, { number := 5, labels := [{ name := "qa-test" }] }]
      [{ number := 5 }, { number := 7 }] 5).2
      { number := 5, labels := [{ name := "qa-test" }] } (by decide)

/-! ## Gating lemmas (claims C7 and C2) -/

lemma gateSkip_skipped (inputs : ParsedInputs) (l : List LinkedIssue) :
    ∀ res : ActionResults,
      (gateSkip inputs l res).skippedIssues = res.skippedIssues ++ numbersOf l := by
  induction l with
  | nil => intro res; simp [gateSkip, numbersOf]
  | cons i is ih =>
    intro res
    simp only [gateSkip, List.foldl_cons] at ih ⊢
    rw [ih]
    simp [numbersOf]

lemma gateSkip_results (inputs : ParsedInputs) (l : List LinkedIssue) :
    ∀ res : ActionResults,
      (gateSkip inputs l res).results = res.results ++ l.map (missingLabelRecord inputs) := by
  induction l with
  | nil => intro res; simp [gateSkip]
  | cons i is ih =>
    intro res
    simp only [gateSkip, List.foldl_cons] at ih ⊢
    rw [ih]
    simp

lemma gateSkip_tested (inputs : ParsedInputs) (l : List LinkedIssue) :
    ∀ res : ActionResults, (gateSkip inputs l res).testedIssues = res.testedIssues := by
  induction l with
  | nil => intro res; simp [gateSkip]
  | cons i is ih =>
    intro res
    simp only [gateSkip, List.foldl_cons] at ih ⊢
    rw [ih]

lemma gateSkip_passed (inputs : ParsedInputs) (l : List LinkedIssue) :
    ∀ res : ActionResults, (gateSkip inputs l res).passedIssues = res.passedIssues := by
  induction l with
  | nil => intro res; simp [gateSkip]
  | cons i is ih =>
    intro res
    simp only [gateSkip, List.foldl_cons] at ih ⊢
    rw [ih]

lemma gateSkip_failed (inputs : ParsedInputs) (l : List LinkedIssue) :
    ∀ res : ActionResults, (gateSkip inputs l res).failedIssues = res.failedIssues := by
  induction l with
  | nil => intro res; simp [gateSkip]
  | cons i is ih =>
    intro res
    simp only [gateSkip, List.foldl_cons] at ih ⊢
    rw [ih]

/-! ## Claim C7 -/

/-- Claim C7: a resolved issue carrying the configured QA label is always
among the issues sent on for processing, regardless of auto-detect; an issue
lacking it is processed iff auto-detect is enabled, and with auto-detect
disabled it is instead recorded as skipped with the missing-label reason and
with no analysis attached (it is never sent to the Classifier, which is only
invoked for processed issues). -/
theorem c7_label_gating :
    ∀ (inputs : ParsedInputs) (linked : List LinkedIssue) (issue : LinkedIssue),
      issue ∈ linked →
      (hasLabel issue inputs.qaLabel = true → issue ∈ (gateIssues inputs linked).1) ∧
      (hasLabel issue inputs.qaLabel = false →
        (issue ∈ (gateIssues inputs linked).1 ↔ inputs.autoDetect = true) ∧
        (inputs.autoDetect = false →
          issue.number ∈ (gateIssues inputs linked).2.skippedIssues ∧
          missingLabelRecord inputs issue ∈ (gateIssues inputs linked).2.results ∧
          (missingLabelRecord inputs issue).analysis = none ∧
          (missingLabelRecord inputs issue).skipReason =
            some ("Missing \"" ++ inputs.qaLabel ++ "\" label"))) := by
  intro inputs linked issue hmem
  unfold gateIssues
  by_cases hc : inputs.autoDetect = true ∧
      0 < (linked.filter fun i => !(hasLabel i inputs.qaLabel)).length
  · rw [if_pos hc]
    constructor
    · intro hl
      exact List.mem_append_left _ (List.mem_filter.mpr ⟨hmem, by simp [hl]⟩)
    · intro hl
      refine ⟨?_, ?_⟩
      · constructor
        · intro _; exact hc.1
        · intro _
          exact List.mem_append_right _ (List.mem_filter.mpr ⟨hmem, by simp [hl]⟩)
      · intro had
        rw [had] at hc
        exact absurd hc.1 (by simp)
  · rw [if_neg hc]
    constructor
    · intro hl
      exact List.mem_filter.mpr ⟨hmem, by simp [hl]⟩
    · intro hl
      have hunl : issue ∈ linked.filter fun i => !(hasLabel i inputs.qaLabel) :=
        List.mem_filter.mpr ⟨hmem, by simp [hl]⟩
      have hlen : 0 < (linked.filter fun i => !(hasLabel i inputs.qaLabel)).length :=
        List.length_pos.mpr (List.ne_nil_of_mem hunl)
      have had : inputs.autoDetect = false := by
        rcases Bool.eq_false_or_eq_true inputs.autoDetect with h | h
        · exact absurd ⟨h, hlen⟩ hc
        · exact h
      refine ⟨?_, ?_⟩
      · constructor
        · intro hin
          have := (List.mem_filter.mp hin).2
          rw [hl] at this
          exact absurd this (by simp)
        · intro h
          rw [had] at h
          exact absurd h (by simp)
      · intro _
        refine ⟨?_, ?_, rfl, rfl⟩
        · rw [gateSkip_skipped]
          simp only [emptyResults]
          exact List.mem_append_right _ (List.mem_map_of_mem LinkedIssue.number hunl)
        · rw [gateSkip_results]
          simp only [emptyResults]
          exact List.mem_append_right _ (List.mem_map_of_mem (missingLabelRecord inputs) hunl)

/-- Claim C7, witness: with auto-detect disabled, the labeled issue 5 is
processed, the unlabeled issue 7 is not, and 7 is recorded as skipped with the
missing-label record. -/
theorem c7_witness :
    (({ number := 5, labels := [{ name := "qa-test" }] } : LinkedIssue) ∈
      (gateIssues { autoDetect := false }
        [{ number := 5, labels := [{ name := "qa-test" }] }, { number := 7 }]).1) ∧
    (({ number := 7 } : LinkedIssue) ∉
      (gateIssues { autoDetect := false }
        [{ number := 5, labels := [{ name := "qa-test" }] }, { number := 7 }]).1) ∧
    (7 ∈ (gateIssues { autoDetect := false }
        [{ number := 5, labels := [{ name := "qa-test" }] }, { number := 7 }]).2.skippedIssues) ∧
    (missingLabelRecord { autoDetect := false } { number := 7 } ∈
      (gateIssues { autoDetect := false }
        [{ number := 5, labels := [{ name := "qa-test" }] }, { number := 7 }]).2.results) := by
  refine ⟨?_, ?_, ?_, ?_⟩
  · exact (c7_label_gating { autoDetect := false }
      [{ number := 5, labels := [{ name := "qa-test" }] }, { number := 7 }]
      { number := 5, labels := [{ name := "qa-test" }] } (by decide)).1 (by decide)
  · intro hm
    exact absurd (((c7_label_gating { autoDetect := false }
      [{ number := 5, labels := [{ name := "qa-test" }] }, { number := 7 }]
      { number := 7 } (by decide)).2 (by decide)).1.mp hm) (by decide)
  · exact ((((c7_label_gating { autoDetect := false }
      [{ number := 5, labels := [{ name := "qa-test" }] }, { number := 7 }]
      { number := 7 } (by decide)).2 (by decide)).2 rfl)).1
  · exact ((((c7_label_gating { autoDetect := false }
      [{ number := 5, labels := [{ name := "qa-test" }] }, { number := 7 }]
      { number := 7 } (by decide)).2 (by decide)).2 rfl)).2.1

/-! ## ASCII case equivalence (claim C10) -/

/-- Two characters are equal up to ASCII case: they are identical, or one is
an ASCII uppercase letter and the other its lowercase form. -/
def charCaseEquiv (a b : Char) : Prop :=
  a = b ∨
  (65 ≤ a.toNat ∧ a.toNat ≤ 90 ∧ b.toNat = a.toNat + 32) ∨
  (65 ≤ b.toNat ∧ b.toNat ≤ 90 ∧ a.toNat = b.toNat + 32)

/-- Two strings are equal up to ASCII case: same length and pointwise
`charCaseEquiv`. -/
def stringCaseEquiv (s t : String) : Prop :=
  List.Forall₂ charCaseEquiv s.data t.data

lemma char_toNat_ofNat_small (n : Nat) (h : n < 55296) : (Char.ofNat n).toNat = n := by
  unfold Char.ofNat
  rw [dif_pos (Or.inl h)]
  rfl

lemma char_toNat_inj (a b : Char) (h : a.toNat = b.toNat) : a = b := by
  have ha := Char.ofNat_toNat a
  have hb := Char.ofNat_toNat b
  rw [← ha, ← hb, h]

lemma lowerChar_toNat (c : Char) :
    (lowerChar c).toNat =
      if 65 ≤ c.toNat ∧ c.toNat ≤ 90 then c.toNat + 32 else c.toNat := by
  unfold lowerChar
  split
  · rename_i h
    exact char_toNat_ofNat_small _ (by omega)
  · rfl

lemma lowerChar_eq_iff (a b : Char) : lowerChar a = lowerChar b ↔ charCaseEquiv a b := by
  constructor
  · intro h
    have hn : (lowerChar a).toNat = (lowerChar b).toNat := by rw [h]
    rw [lowerChar_toNat, lowerChar_toNat] at hn
    unfold charCaseEquiv
    by_cases ha : 65 ≤ a.toNat ∧ a.toNat ≤ 90 <;>
      by_cases hb : 65 ≤ b.toNat ∧ b.toNat ≤ 90
    · rw [if_pos ha, if_pos hb] at hn
      exact Or.inl (char_toNat_inj a b (by omega))
    · rw [if_pos ha, if_neg hb] at hn
      exact Or.inr (Or.inl ⟨ha.1, ha.2, by omega⟩)
    · rw [if_neg ha, if_pos hb] at hn
      exact Or.inr (Or.inr ⟨hb.1, hb.2, by omega⟩)
    · rw [if_neg ha, if_neg hb] at hn
      exact Or.inl (char_toNat_inj a b hn)
  · intro h
    rcases h with rfl | ⟨h1, h2, h3⟩ | ⟨h1, h2, h3⟩
    · rfl
    · refine char_toNat_inj _ _ ?_
      rw [lowerChar_toNat, lowerChar_toNat, if_pos ⟨h1, h2⟩, if_neg (by omega)]
      omega
    · refine char_toNat_inj _ _ ?_
      rw [lowerChar_toNat, lowerChar_toNat, if_neg (by omega), if_pos ⟨h1, h2⟩]
      omega

lemma map_lowerChar_eq_iff :
    ∀ (l1 l2 : List Char),
      l1.map lowerChar = l2.map lowerChar ↔ List.Forall₂ charCaseEquiv l1 l2 := by
  intro l1
  induction l1 with
  | nil =>
    intro l2
    cases l2 <;> simp
  | cons a as ih =>
    intro l2
    cases l2 with
    | nil => simp
    | cons b bs =>
      simp [List.forall₂_cons, ← lowerChar_eq_iff, ih bs]

lemma lowerStr_eq_iff (s t : String) : lowerStr s = lowerStr t ↔ stringCaseEquiv s t := by
  unfold lowerStr stringCaseEquiv
  rw [← map_lowerChar_eq_iff]
  exact ⟨fun h => congrArg String.data h, fun h => congrArg String.mk h⟩

/-! ## Claim C10 -/

/-- Claim C10: the QA-label gate's comparison is case-insensitive — an issue
counts as carrying the configured label exactly when some label on the issue
equals the configured name up to ASCII case; in particular an issue labeled
"QA-Test" passes a gate configured as "qa-test". -/
theorem c10_label_case_insensitive :
    (∀ (issue : LinkedIssue) (labelName : String),
      hasLabel issue labelName = true ↔
        ∃ l ∈ issue.labels, stringCaseEquiv l.name labelName) ∧
    hasLabel { number := 1, labels := [{ name := "QA-Test" }] } "qa-test" = true := by
  constructor
  · intro issue labelName
    unfold hasLabel
    rw [List.any_eq_true]
    constructor
    · rintro ⟨l, hl, hbeq⟩
      exact ⟨l, hl, (lowerStr_eq_iff _ _).mp (beq_iff_eq.mp hbeq)⟩
    · rintro ⟨l, hl, heq⟩
      exact ⟨l, hl, beq_iff_eq.mpr ((lowerStr_eq_iff _ _).mpr heq)⟩
  · decide

/-! ## Custom-pattern matches (claim C9) -/

/-- Modelled from the spec's words, for refutation only: the claim says the
number source is "the first capture group, or the full match text when the
pattern has no capture group" — so a present (possibly empty) capture is
always the source. -/
def specCustomNumSource (m : JsMatch) : String :=
  match m.group1 with
  | some g => g
  | none => m.full

lemma mem_insertNum (l : List Nat) (k n : Nat) :
    n ∈ insertNum l k ↔ n ∈ l ∨ n = k := by
  unfold insertNum
  split
  · rename_i hc
    have hc : k ∈ l := by simpa using hc
    constructor
    · exact Or.inl
    · rintro (h | rfl)
      · exact h
      · exact hc
  · simp

lemma mem_addCustomMatches (ms : List JsMatch) :
    ∀ (acc : List Nat) (k : Nat),
      k ∈ addCustomMatches acc ms ↔
        k ∈ acc ∨ ∃ m ∈ ms, ∃ j : Int,
          parseIntJs (matchNumSource m) = some j ∧ 0 < j ∧ j.toNat = k := by
  induction ms with
  | nil => intro acc k; simp [addCustomMatches]
  | cons m ms ih =>
    intro acc k
    unfold addCustomMatches at ih ⊢
    rw [List.foldl_cons, ih]
    cases hp : parseIntJs (matchNumSource m) with
    | none =>
      dsimp only
      simp only [List.mem_cons]
      constructor
      · rintro (h | h)
        · exact Or.inl h
        · obtain ⟨m2, hm2, j, hj⟩ := h
          exact Or.inr ⟨m2, Or.inr hm2, j, hj⟩
      · rintro (h | ⟨m2, hm2 | hm2, j, hj1, hj2⟩)
        · exact Or.inl h
        · rw [hm2] at hj1; rw [hp] at hj1; cases hj1
        · exact Or.inr ⟨m2, hm2, j, hj1, hj2⟩
    | some j0 =>
      dsimp only
      by_cases hpos : 0 < j0
      · rw [if_pos hpos, mem_insertNum]
        simp only [List.mem_cons]
        constructor
        · rintro ((h | rfl) | h)
          · exact Or.inl h
          · exact Or.inr ⟨m, Or.inl rfl, j0, hp, hpos, rfl⟩
          · obtain ⟨m2, hm2, j, hj⟩ := h
            exact Or.inr ⟨m2, Or.inr hm2, j, hj⟩
        · rintro (h | ⟨m2, hm2 | hm2, j, hj1, hj2, hj3⟩)
          · exact Or.inl (Or.inl h)
          · rw [hm2, hp] at hj1
            cases hj1
            exact Or.inl (Or.inr hj3.symm)
          · exact Or.inr ⟨m2, hm2, j, hj1, hj2, hj3⟩
      · rw [if_neg hpos]
        simp only [List.mem_cons]
        constructor
        · rintro (h | h)
          · exact Or.inl h
          · obtain ⟨m2, hm2, j, hj⟩ := h
            exact Or.inr ⟨m2, Or.inr hm2, j, hj⟩
        · rintro (h | ⟨m2, hm2 | hm2, j, hj1, hj2, hj3⟩)
          · exact Or.inl h
          · rw [hm2, hp] at hj1
            cases hj1
            exact absurd hj2 hpos
          · exact Or.inr ⟨m2, hm2, j, hj1, hj2, hj3⟩

/-! ## Claim C9 -/

/-- Claim C9, counterexample: for the custom pattern `(#?)\d+` on the message
`42`, the regex match has full text "42" and an empty first capture group; the
claim's number source is that capture, whose parse is `NaN`, so the claim
predicts the match is discarded — but the code's `match[1] || match[0]` falls
back to the full match on the falsy empty string and keeps 42. -/
theorem c9_counterexample :
    addCustomMatches [] [{ full := "42", group1 := some "" }] = [42] ∧
    parseIntJs (specCustomNumSource { full := "42", group1 := some "" }) = none := by
  refine ⟨by decide, by decide⟩

/-- Claim C9, amended: the number source of a custom-pattern match is its
first capture group when that capture participated and is non-empty, and the
full match text otherwise (no capture group, non-participating group, or empty
capture — JavaScript `||` treats the empty string as falsy); a match whose
source parses as non-numeric or non-positive is silently discarded, and the
kept numbers are exactly the positive parses. -/
theorem c9_custom_capture :
    (∀ (acc : List Nat) (ms : List JsMatch) (k : Nat),
      k ∈ addCustomMatches acc ms ↔
        k ∈ acc ∨ ∃ m ∈ ms, ∃ j : Int,
          parseIntJs (matchNumSource m) = some j ∧ 0 < j ∧ j.toNat = k) ∧
    (∀ (acc : List Nat) (ms : List JsMatch) (m : JsMatch),
      (parseIntJs (matchNumSource m) = none ∨
        ∃ j : Int, parseIntJs (matchNumSource m) = some j ∧ ¬ 0 < j) →
      addCustomMatches acc (ms ++ [m]) = addCustomMatches acc ms) := by
  constructor
  · intro acc ms k
    exact mem_addCustomMatches ms acc k
  · intro acc ms m hbad
    unfold addCustomMatches
    rw [List.foldl_append, List.foldl_cons, List.foldl_nil]
    rcases hbad with h | ⟨j, hj, hnp⟩
    · rw [h]
    · rw [hj]
      dsimp only
      rw [if_neg hnp]

/-- Claim C9, witness: a numeric capture is kept, a non-numeric capture is
silently dropped. -/
theorem c9_witness :
    (123 ∈ addCustomMatches [] [{ full := "PROJ-123", group1 := some "123" }]) ∧
    addCustomMatches [] ([] ++ [{ full := "PROJ-abc", group1 := some "abc" }]) =
      addCustomMatches [] [] := by
  constructor
  · exact (c9_custom_capture.1 [] [{ full := "PROJ-123", group1 := some "123" }] 123).mpr
      (Or.inr ⟨{ full := "PROJ-123", group1 := some "123" }, by decide, 123,
        by decide, by decide, by decide⟩)
  · exact c9_custom_capture.2 [] [] { full := "PROJ-abc", group1 := some "abc" }
      (Or.inl (by decide))

/-! ## Category-count invariants (claim C2) -/

/-- Total number of occurrences of `n` across the three mutually exclusive
category lists. -/
def catCount (res : ActionResults) (n : Nat) : Nat :=
  res.passedIssues.count n + res.failedIssues.count n + res.skippedIssues.count n

lemma count_singleton_eq (n m : Nat) : List.count n [m] = if n = m then 1 else 0 := by
  rcases eq_or_ne n m with h | h <;> simp [h]

lemma processIssue_catCount (issue : LinkedIssue) (inputs : ParsedInputs)
    (env : IssueEnv) (res : ActionResults) (n : Nat) :
    catCount (processIssue issue inputs env res) n ≤
      catCount res n + (if n = issue.number then 1 else 0) := by
  obtain ⟨p, f, s, t, rec, h1, h2, h3, _, _, hpf, hfs, _⟩ :=
    processIssue_summary issue inputs env res
  unfold catCount
  rw [h1, h2, h3]
  simp only [List.count_append]
  cases p <;> cases f <;> cases s
  · simp [count_singleton_eq]
  · simp [count_singleton_eq]
    split <;> omega
  · simp [count_singleton_eq]
    split <;> omega
  · exact absurd (hfs rfl) (by simp)
  · simp [count_singleton_eq]
    split <;> omega
  · exact absurd (hpf rfl).2 (by simp)
  · exact absurd (hpf rfl).1 (by simp)
  · exact absurd (hpf rfl).1 (by simp)

lemma processIssue_tested_step (issue : LinkedIssue) (inputs : ParsedInputs)
    (env : IssueEnv) (res : ActionResults)
    (hinv : ∀ k, k ∈ res.testedIssues → k ∈ res.passedIssues ∨ k ∈ res.failedIssues) :
    ∀ k, k ∈ (processIssue issue inputs env res).testedIssues →
      k ∈ (processIssue issue inputs env res).passedIssues ∨
      k ∈ (processIssue issue inputs env res).failedIssues := by
  obtain ⟨p, f, s, t, rec, h1, h2, _, h4, _, _, _, ht⟩ :=
    processIssue_summary issue inputs env res
  intro k hk
  rw [h4, List.mem_append] at hk
  rw [h1, h2]
  rcases hk with hk | hk
  · rcases hinv k hk with h | h
    · exact Or.inl (List.mem_append_left _ h)
    · exact Or.inr (List.mem_append_left _ h)
  · have htt : t = true := by
      cases t
      · simp at hk
      · rfl
    have hkn : k = issue.number := by
      rw [htt] at hk
      simpa using hk
    rcases ht htt with hp | hf
    · rw [hp, hkn]
      exact Or.inl (List.mem_append_right _ (by simp))
    · rw [hf, hkn]
      exact Or.inr (List.mem_append_right _ (by simp))

lemma processAll_catCount (issues : List LinkedIssue) (inputs : ParsedInputs)
    (env : Nat → IssueEnv) :
    ∀ (res : ActionResults) (n : Nat),
      catCount (processAll issues inputs env res) n ≤
        catCount res n + (numbersOf issues).count n := by
  induction issues with
  | nil => intro res n; simp [processAll, numbersOf]
  | cons i is ih =>
    intro res n
    simp only [processAll, List.foldl_cons] at ih ⊢
    calc catCount (List.foldl (fun r issue => processIssue issue inputs (env issue.number) r)
            (processIssue i inputs (env i.number) res) is) n
        ≤ catCount (processIssue i inputs (env i.number) res) n + (numbersOf is).count n :=
          ih _ n
      _ ≤ catCount res n + (if n = i.number then 1 else 0) + (numbersOf is).count n :=
          Nat.add_le_add_right (processIssue_catCount i inputs (env i.number) res n) _
      _ ≤ catCount res n + (numbersOf (i :: is)).count n := by
          simp only [numbersOf, List.map_cons, List.count_cons, beq_iff_eq]
          rcases eq_or_ne n i.number with h | h <;> simp [h] <;> omega

lemma processAll_tested_inv (issues : List LinkedIssue) (inputs : ParsedInputs)
    (env : Nat → IssueEnv) :
    ∀ (res : ActionResults),
      (∀ k, k ∈ res.testedIssues → k ∈ res.passedIssues ∨ k ∈ res.failedIssues) →
      ∀ k, k ∈ (processAll issues inputs env res).testedIssues →
        k ∈ (processAll issues inputs env res).passedIssues ∨
        k ∈ (processAll issues inputs env res).failedIssues := by
  induction issues with
  | nil => intro res hinv k; exact hinv k
  | cons i is ih =>
    intro res hinv
    simp only [processAll, List.foldl_cons] at ih ⊢
    exact ih _ (processIssue_tested_step i inputs (env i.number) res hinv)

/-! ### Distinctness of the resolved numbers -/

lemma nodup_numbersOf_insertSet (m : List LinkedIssue) (i : LinkedIssue)
    (h : (numbersOf m).Nodup) : (numbersOf (insertSet m i)).Nodup := by
  rw [numbersOf_insertSet]
  split
  · exact h
  · rename_i hany
    rw [List.nodup_append]
    refine ⟨h, List.nodup_singleton _, ?_⟩
    intro x hx hx2
    simp only [List.mem_singleton] at hx2
    subst hx2
    apply hany
    simp only [numbersOf, List.mem_map] at hx
    obtain ⟨j, hj, hjn⟩ := hx
    exact List.any_eq_true.mpr ⟨j, hj, beq_iff_eq.mpr hjn⟩

lemma nodup_numbersOf_insertIfAbsent (m : List LinkedIssue) (i : LinkedIssue)
    (h : (numbersOf m).Nodup) : (numbersOf (insertIfAbsent m i)).Nodup := by
  unfold insertIfAbsent
  split
  · exact h
  · rename_i hany
    simp only [numbersOf, List.map_append, List.map_cons, List.map_nil]
    rw [List.nodup_append]
    refine ⟨h, List.nodup_singleton _, ?_⟩
    intro x hx hx2
    simp only [List.mem_singleton] at hx2
    subst hx2
    apply hany
    simp only [List.mem_map] at hx
    obtain ⟨j, hj, hjn⟩ := hx
    exact List.any_eq_true.mpr ⟨j, hj, beq_iff_eq.mpr hjn⟩

lemma nodup_numbersOf_foldl_insertSet (l : List LinkedIssue) :
    ∀ b : List LinkedIssue, (numbersOf b).Nodup →
      (numbersOf (l.foldl insertSet b)).Nodup := by
  induction l with
  | nil => intro b h; exact h
  | cons i is ih =>
    intro b h
    rw [List.foldl_cons]
    exact ih _ (nodup_numbersOf_insertSet b i h)

lemma nodup_numbersOf_foldl_insertIfAbsent (l : List LinkedIssue) :
    ∀ b : List LinkedIssue, (numbersOf b).Nodup →
      (numbersOf (l.foldl insertIfAbsent b)).Nodup := by
  induction l with
  | nil => intro b h; exact h
  | cons i is ih =>
    intro b h
    rw [List.foldl_cons]
    exact ih _ (nodup_numbersOf_insertIfAbsent b i h)

lemma nodup_numbersOf_resolveIssues (prLinked commitIssues : List LinkedIssue) :
    (numbersOf (resolveIssues prLinked commitIssues)).Nodup := by
  unfold resolveIssues
  exact nodup_numbersOf_foldl_insertIfAbsent commitIssues _
    (nodup_numbersOf_foldl_insertSet prLinked [] (by simp [numbersOf]))

/-- The labeled and unlabeled filters split the count of each number. -/
lemma count_gate_split (inputs : ParsedInputs) (linked : List LinkedIssue) (n : Nat) :
    (numbersOf (linked.filter fun i => hasLabel i inputs.qaLabel)).count n +
      (numbersOf (linked.filter fun i => !(hasLabel i inputs.qaLabel))).count n =
      (numbersOf linked).count n := by
  have hperm := (List.filter_append_perm (fun i => hasLabel i inputs.qaLabel) linked).map
    LinkedIssue.number
  have h2 := hperm.count_eq n
  simp only [List.map_append] at h2
  rw [List.count_append] at h2
  exact h2

/-! ## Claim C2 -/

/-- Claim C2, counterexample: the claim states each issue number appears in at
most one of the four output categories; but in a run whose single labeled
issue passes its test, the number 5 appears in both `testedIssues` and
`passedIssues` — a passing issue is pushed onto both lists by design. -/
theorem c2_counterexample :
    5 ∈ (runCore [{ number := 5, labels := [{ name := "qa-test" }] }] [] {}
      (fun _ => { analyze := .ok { isTestable := true, testUrl := some "https://x" },
                  runTest := .ok { status := .completed,
                                   result := some { success := true } } })).testedIssues ∧
    5 ∈ (runCore [{ number := 5, labels := [{ name := "qa-test" }] }] [] {}
      (fun _ => { analyze := .ok { isTestable := true, testUrl := some "https://x" },
                  runTest := .ok { status := .completed,
                                   result := some { success := true } } })).passedIssues := by
  refine ⟨by decide, by decide⟩

/-- Claim C2, amended: in the final aggregate of a run, each issue number
appears in at most one of the passed / failed / skipped categories (and at
most once there); every number in `testedIssues` also appears in
`passedIssues` or `failedIssues` — so tested deliberately overlaps those two —
and a skipped issue never appears among the tested issues. -/
theorem c2_category_invariants :
    ∀ (prLinked commitIssues : List LinkedIssue) (inputs : ParsedInputs)
      (env : Nat → IssueEnv) (n : Nat),
      (runCore prLinked commitIssues inputs env).passedIssues.count n +
        (runCore prLinked commitIssues inputs env).failedIssues.count n +
        (runCore prLinked commitIssues inputs env).skippedIssues.count n ≤ 1 ∧
      (n ∈ (runCore prLinked commitIssues inputs env).testedIssues →
        n ∈ (runCore prLinked commitIssues inputs env).passedIssues ∨
        n ∈ (runCore prLinked commitIssues inputs env).failedIssues) ∧
      (n ∈ (runCore prLinked commitIssues inputs env).skippedIssues →
        n ∉ (runCore prLinked commitIssues inputs env).testedIssues) := by
  intro prLinked commitIssues inputs env n
  have hcount1 : (numbersOf (resolveIssues prLinked commitIssues)).count n ≤ 1 :=
    List.nodup_iff_count_le_one.mp (nodup_numbersOf_resolveIssues prLinked commitIssues) n
  have hbase : catCount (runCore prLinked commitIssues inputs env) n ≤ 1 := by
    unfold runCore
    dsimp only
    refine le_trans (processAll_catCount _ inputs env _ n) ?_
    have hsplit := count_gate_split inputs (resolveIssues prLinked commitIssues) n
    unfold gateIssues
    dsimp only
    split
    · unfold catCount emptyResults
      simp only [List.count_nil, Nat.add_zero, Nat.zero_add]
      unfold numbersOf at hsplit hcount1 ⊢
      rw [List.map_append, List.count_append]
      omega
    · unfold catCount
      rw [gateSkip_passed, gateSkip_failed, gateSkip_skipped]
      simp only [emptyResults, List.count_nil, List.nil_append, Nat.add_zero, Nat.zero_add]
      omega
  have htest : ∀ k, k ∈ (runCore prLinked commitIssues inputs env).testedIssues →
      k ∈ (runCore prLinked commitIssues inputs env).passedIssues ∨
      k ∈ (runCore prLinked commitIssues inputs env).failedIssues := by
    unfold runCore
    dsimp only
    apply processAll_tested_inv
    intro k hk
    exfalso
    revert hk
    unfold gateIssues
    dsimp only
    split
    · simp [emptyResults]
    · rw [gateSkip_tested]
      simp [emptyResults]
  refine ⟨?_, htest n, ?_⟩
  · unfold catCount at hbase
    omega
  · intro hsk htst
    rcases htest n htst with hp | hf
    · have h1 : 0 < (runCore prLinked commitIssues inputs env).passedIssues.count n :=
        List.count_pos_iff.mpr hp
      have h2 : 0 < (runCore prLinked commitIssues inputs env).skippedIssues.count n :=
        List.count_pos_iff.mpr hsk
      unfold catCount at hbase
      omega
    · have h1 : 0 < (runCore prLinked commitIssues inputs env).failedIssues.count n :=
        List.count_pos_iff.mpr hf
      have h2 : 0 < (runCore prLinked commitIssues inputs env).skippedIssues.count n :=
        List.count_pos_iff.mpr hsk
      unfold catCount at hbase
      omega

/-! ## The built-in commit-message pattern (claim C8)

Declarative reading of the regex
`(?:close[sd]?|fix(?:e[sd])?|resolve[sd]?)\s*#(\d+)` with the `i` flag: an
occurrence is one of the nine keyword spellings (up to ASCII case), then
optional whitespace, then `#`, then a maximal nonempty digit group. -/

/-- The nine keyword spellings, lowercase. -/
def kwSpellings : List (List Char) :=
  [['c', 'l', 'o', 's', 'e'], ['c', 'l', 'o', 's', 'e', 's'], ['c', 'l', 'o', 's', 'e', 'd'],
   ['f', 'i', 'x'], ['f', 'i', 'x', 'e', 's'], ['f', 'i', 'x', 'e', 'd'],
   ['r', 'e', 's', 'o', 'l', 'v', 'e'], ['r', 'e', 's', 'o', 'l', 'v', 'e', 's'],
   ['r', 'e', 's', 'o', 'l', 'v', 'e', 'd']]

/-- `n` is referenced in `msg`: somewhere in `msg` a keyword spelling
(case-insensitively) is followed by optional whitespace, a `#`, and a maximal
nonempty digit group whose value is `n`. -/
def occursKW (msg : List Char) (n : Nat) : Prop :=
  ∃ pre kw ws ds post,
    msg = pre ++ kw ++ ws ++ '#' :: (ds ++ post) ∧
    kw.map lowerChar ∈ kwSpellings ∧
    (∀ c ∈ ws, isJsSpace c = true) ∧
    ds ≠ [] ∧
    (∀ c ∈ ds, isDigitChar c = true) ∧
    (∀ c, post.head? = some c → isDigitChar c = false) ∧
    natOfDigits ds = n

/-! ### Small helpers about character classes and take/dropWhile -/

lemma mem_takeWhile (p : Char → Bool) (l : List Char) :
    ∀ c ∈ l.takeWhile p, p c = true := by
  induction l with
  | nil => simp
  | cons a as ih =>
    rw [List.takeWhile_cons]
    split
    · rename_i h
      intro c hc
      rcases List.mem_cons.mp hc with rfl | hc
      · exact h
      · exact ih c hc
    · simp

lemma head?_dropWhile_false (p : Char → Bool) (l : List Char) :
    ∀ c, (l.dropWhile p).head? = some c → p c = false := by
  have h := List.head?_dropWhile_not p l
  intro c hc
  rw [hc] at h
  exact h

lemma dropWhile_append_all (p : Char → Bool) (ws l : List Char)
    (h : ∀ c ∈ ws, p c = true) : (ws ++ l).dropWhile p = l.dropWhile p := by
  induction ws with
  | nil => simp
  | cons a as ih =>
    rw [List.cons_append, List.dropWhile_cons_of_pos (h a (by simp))]
    exact ih fun c hc => h c (by simp [hc])

lemma takeWhile_append_maximal (p : Char → Bool) (ds rest : List Char)
    (hds : ∀ c ∈ ds, p c = true) (hrest : ∀ c, rest.head? = some c → p c = false) :
    (ds ++ rest).takeWhile p = ds := by
  induction ds with
  | nil =>
    cases rest with
    | nil => rfl
    | cons r rs =>
      simp only [List.nil_append]
      exact List.takeWhile_cons_of_neg (by simp [hrest r rfl])
  | cons d ds2 ih =>
    rw [List.cons_append, List.takeWhile_cons_of_pos (hds d (by simp))]
    rw [ih fun c hc => hds c (by simp [hc])]

lemma dropWhile_append_maximal (p : Char → Bool) (ds rest : List Char)
    (hds : ∀ c ∈ ds, p c = true) (hrest : ∀ c, rest.head? = some c → p c = false) :
    (ds ++ rest).dropWhile p = rest := by
  induction ds with
  | nil =>
    cases rest with
    | nil => rfl
    | cons r rs =>
      simp only [List.nil_append]
      exact List.dropWhile_cons_of_neg (by simp [hrest r rfl])
  | cons d ds2 ih =>
    rw [List.cons_append, List.dropWhile_cons_of_pos (hds d (by simp))]
    exact ih fun c hc => hds c (by simp [hc])

/-! ### matchPrefixCI -/

lemma matchPrefixCI_complete :
    ∀ (m r : List Char), matchPrefixCI (m.map lowerChar) (m ++ r) = some r := by
  intro m
  induction m with
  | nil => intro r; rfl
  | cons a as ih =>
    intro r
    simp only [List.map_cons, List.cons_append, matchPrefixCI, if_pos rfl]
    exact ih r

lemma matchPrefixCI_sound :
    ∀ (pat l rest : List Char), matchPrefixCI pat l = some rest →
      ∃ m, l = m ++ rest ∧ m.map lowerChar = pat := by
  intro pat
  induction pat with
  | nil =>
    intro l rest h
    simp only [matchPrefixCI, Option.some.injEq] at h
    exact ⟨[], by rw [← h]; rfl, rfl⟩
  | cons p ps ih =>
    intro l rest h
    cases l with
    | nil => simp [matchPrefixCI] at h
    | cons c cs =>
      simp only [matchPrefixCI] at h
      split at h
      · rename_i hc
        obtain ⟨m, hm1, hm2⟩ := ih cs rest h
        exact ⟨c :: m, by rw [List.cons_append, hm1], by simp [hm2, hc]⟩
      · cases h

lemma matchPrefixCI_none_of_head (p : Char) (ps : List Char) (c : Char) (cs : List Char)
    (h : lowerChar c ≠ p) : matchPrefixCI (p :: ps) (c :: cs) = none := by
  simp only [matchPrefixCI, if_neg h]

/-! ### matchTail -/

lemma matchTail_sound (l : List Char) (n : Nat) (rest : List Char)
    (h : matchTail l = some (n, rest)) :
    ∃ ws ds, l = ws ++ '#' :: (ds ++ rest) ∧
      (∀ c ∈ ws, isJsSpace c = true) ∧ ds ≠ [] ∧
      (∀ c ∈ ds, isDigitChar c = true) ∧
      (∀ c, rest.head? = some c → isDigitChar c = false) ∧
      natOfDigits ds = n := by
  unfold matchTail at h
  cases hd : l.dropWhile isJsSpace with
  | nil => rw [hd] at h; cases h
  | cons c l2 =>
    rw [hd] at h
    dsimp only at h
    split at h
    · rename_i hc
      subst hc
      split at h
      · cases h
      · rename_i hne
        injection h with h2
        injection h2 with hn hrest
        refine ⟨l.takeWhile isJsSpace, l2.takeWhile isDigitChar, ?_, ?_, ?_, ?_, ?_, hn⟩
        · rw [← hrest, List.takeWhile_append_dropWhile]
          rw [← hd, List.takeWhile_append_dropWhile]
        · exact mem_takeWhile isJsSpace l
        · intro hemp
          rw [hemp] at hne
          exact hne rfl
        · exact mem_takeWhile isDigitChar l2
        · rw [← hrest]
          exact head?_dropWhile_false isDigitChar l2
    · cases h

lemma matchTail_complete (ws ds rest : List Char)
    (hws : ∀ c ∈ ws, isJsSpace c = true) (hds : ds ≠ [])
    (hdig : ∀ c ∈ ds, isDigitChar c = true)
    (hrest : ∀ c, rest.head? = some c → isDigitChar c = false) :
    matchTail (ws ++ '#' :: (ds ++ rest)) = some (natOfDigits ds, rest) := by
  unfold matchTail
  rw [dropWhile_append_all isJsSpace ws _ hws,
    List.dropWhile_cons_of_neg (by simp [isJsSpace])]
  dsimp only
  rw [if_pos rfl]
  rw [takeWhile_append_maximal isDigitChar ds rest hdig hrest,
    dropWhile_append_maximal isDigitChar ds rest hdig hrest]
  rw [if_neg (by simp [List.isEmpty_iff, hds])]

/-! ### Suffix matchers -/

lemma matchSuffixSD_sound (r : List Char) (n : Nat) (rest : List Char)
    (h : matchSuffixSD r = some (n, rest)) :
    (∃ c cs, r = c :: cs ∧ (lowerChar c = 's' ∨ lowerChar c = 'd') ∧
      matchTail cs = some (n, rest)) ∨ matchTail r = some (n, rest) := by
  cases r with
  | nil => exact Or.inr h
  | cons c cs =>
    unfold matchSuffixSD at h
    dsimp only at h
    split at h
    · rename_i hc
      cases hmt : matchTail cs with
      | some v =>
        rw [hmt] at h
        dsimp only at h
        injection h with hv
        exact Or.inl ⟨c, cs, rfl, hc, by rw [hmt, hv]⟩
      | none =>
        rw [hmt] at h
        dsimp only at h
        exact Or.inr h
    · exact Or.inr h

lemma matchSuffixESD_sound (r : List Char) (n : Nat) (rest : List Char)
    (h : matchSuffixESD r = some (n, rest)) :
    (∃ c1 c2 cs, r = c1 :: c2 :: cs ∧ lowerChar c1 = 'e' ∧
      (lowerChar c2 = 's' ∨ lowerChar c2 = 'd') ∧
      matchTail cs = some (n, rest)) ∨ matchTail r = some (n, rest) := by
  cases r with
  | nil => exact Or.inr h
  | cons c1 r2 =>
    cases r2 with
    | nil => exact Or.inr h
    | cons c2 cs =>
      unfold matchSuffixESD at h
      dsimp only at h
      split at h
      · rename_i hc
        cases hmt : matchTail cs with
        | some v =>
          rw [hmt] at h
          dsimp only at h
          injection h with hv
          exact Or.inl ⟨c1, c2, cs, rfl, hc.1, hc.2, by rw [hmt, hv]⟩
        | none =>
          rw [hmt] at h
          dsimp only at h
          exact Or.inr h
      · exact Or.inr h

lemma matchSuffixSD_of_sd (c : Char) (cs : List Char) (v : Nat × List Char)
    (hc : lowerChar c = 's' ∨ lowerChar c = 'd') (h : matchTail cs = some v) :
    matchSuffixSD (c :: cs) = some v := by
  unfold matchSuffixSD
  dsimp only
  rw [if_pos hc, h]

lemma matchSuffixSD_not_sd (r : List Char)
    (hr : ∀ c, r.head? = some c → ¬(lowerChar c = 's' ∨ lowerChar c = 'd')) :
    matchSuffixSD r = matchTail r := by
  cases r with
  | nil => rfl
  | cons c cs =>
    unfold matchSuffixSD
    dsimp only
    rw [if_neg (hr c rfl)]

lemma matchSuffixESD_of_esd (c1 c2 : Char) (cs : List Char) (v : Nat × List Char)
    (h1 : lowerChar c1 = 'e') (h2 : lowerChar c2 = 's' ∨ lowerChar c2 = 'd')
    (h : matchTail cs = some v) : matchSuffixESD (c1 :: c2 :: cs) = some v := by
  unfold matchSuffixESD
  dsimp only
  rw [if_pos ⟨h1, h2⟩, h]

lemma matchSuffixESD_not_e (r : List Char)
    (hr : ∀ c, r.head? = some c → lowerChar c ≠ 'e') :
    matchSuffixESD r = matchTail r := by
  cases r with
  | nil => rfl
  | cons c1 r2 =>
    cases r2 with
    | nil => rfl
    | cons c2 cs =>
      unfold matchSuffixESD
      dsimp only
      rw [if_neg fun hand => hr c1 rfl hand.1]

/-! ### Heads of the whitespace-hash region -/

lemma ws_hash_head_cond (ws X : List Char) (hws : ∀ c ∈ ws, isJsSpace c = true) :
    ∀ c, (ws ++ '#' :: X).head? = some c → isJsSpace c = true ∨ c = '#' := by
  cases ws with
  | nil =>
    intro c hc
    injection hc with hc
    exact Or.inr hc.symm
  | cons w ws2 =>
    intro c hc
    injection hc with hc
    exact Or.inl (hc ▸ hws w (by simp))

lemma space_or_hash_not_sde (c : Char) (h : isJsSpace c = true ∨ c = '#') :
    ¬(lowerChar c = 's' ∨ lowerChar c = 'd') ∧ lowerChar c ≠ 'e' := by
  rcases h with h | rfl
  · simp only [isJsSpace, Bool.or_eq_true, beq_iff_eq] at h
    rcases h with ((((((((rfl | rfl) | rfl) | rfl) | rfl) | rfl) | rfl) | rfl) | rfl) | rfl <;>
      exact ⟨by decide, by decide⟩
  · exact ⟨by decide, by decide⟩

/-! ### Inverting map lowerChar -/

lemma map_lowerChar_cons_inv (l : List Char) (x : Char) (xs : List Char)
    (h : l.map lowerChar = x :: xs) :
    ∃ a l2, l = a :: l2 ∧ lowerChar a = x ∧ l2.map lowerChar = xs := by
  cases l with
  | nil => simp at h
  | cons a l2 =>
    simp only [List.map_cons, List.cons.injEq] at h
    exact ⟨a, l2, rfl, h.1, h.2⟩

lemma map_lowerChar_single_inv (l : List Char) (x : Char)
    (h : l.map lowerChar = [x]) : ∃ a, l = [a] ∧ lowerChar a = x := by
  obtain ⟨a, l2, rfl, ha, h2⟩ := map_lowerChar_cons_inv l x [] h
  cases l2 with
  | nil => exact ⟨a, rfl, ha⟩
  | cons b l3 => simp at h2

lemma map_lowerChar_pair_inv (l : List Char) (x y : Char)
    (h : l.map lowerChar = [x, y]) :
    ∃ a b, l = [a, b] ∧ lowerChar a = x ∧ lowerChar b = y := by
  obtain ⟨a, l2, rfl, ha, h2⟩ := map_lowerChar_cons_inv l x [y] h
  obtain ⟨b, hb, hb2⟩ := map_lowerChar_single_inv l2 y h2
  exact ⟨a, b, by rw [hb], ha, hb2⟩

lemma prefix_none_of_head_ne (p : Char) (ps : List Char) (kw T : List Char) (x : Char)
    (hx : (kw.map lowerChar).head? = some x) (hne : x ≠ p) :
    matchPrefixCI (p :: ps) (kw ++ T) = none := by
  cases kw with
  | nil => simp at hx
  | cons k1 kw2 =>
    simp only [List.map_cons, List.head?_cons, Option.some.injEq] at hx
    rw [List.cons_append]
    exact matchPrefixCI_none_of_head p ps k1 _ (by rw [hx]; exact hne)

/-! ### One pattern attempt: soundness -/

/-- A successful pattern attempt at the current position decomposes the input
into keyword, whitespace, `#`, maximal digit group, and the rest. -/
lemma tryMatchAt_sound (l : List Char) (n : Nat) (rest : List Char)
    (h : tryMatchAt l = some (n, rest)) :
    ∃ kw ws ds, l = kw ++ ws ++ '#' :: (ds ++ rest) ∧
      kw.map lowerChar ∈ kwSpellings ∧
      (∀ c ∈ ws, isJsSpace c = true) ∧ ds ≠ [] ∧
      (∀ c ∈ ds, isDigitChar c = true) ∧
      (∀ c, rest.head? = some c → isDigitChar c = false) ∧
      natOfDigits ds = n := by
  unfold tryMatchAt at h
  cases hp1 : matchPrefixCI ['c', 'l', 'o', 's', 'e'] l with
  | some r =>
    rw [hp1] at h
    dsimp only at h
    obtain ⟨m, rfl, hm⟩ := matchPrefixCI_sound _ l r hp1
    rcases matchSuffixSD_sound r n rest h with ⟨c, cs, rfl, hc, hmt⟩ | hmt
    · obtain ⟨ws, ds, hdec, hws, hds, hdig, hrest, hn⟩ := matchTail_sound cs n rest hmt
      refine ⟨m ++ [c], ws, ds, ?_, ?_, hws, hds, hdig, hrest, hn⟩
      · rw [hdec]
        simp [List.append_assoc]
      · rcases hc with hc | hc <;>
          simp [kwSpellings, List.map_append, hm, hc]
    · obtain ⟨ws, ds, hdec, hws, hds, hdig, hrest, hn⟩ := matchTail_sound r n rest hmt
      refine ⟨m, ws, ds, ?_, ?_, hws, hds, hdig, hrest, hn⟩
      · rw [hdec]
        simp [List.append_assoc]
      · simp [kwSpellings, hm]
  | none =>
    rw [hp1] at h
    dsimp only at h
    cases hp2 : matchPrefixCI ['f', 'i', 'x'] l with
    | some r =>
      rw [hp2] at h
      dsimp only at h
      obtain ⟨m, rfl, hm⟩ := matchPrefixCI_sound _ l r hp2
      rcases matchSuffixESD_sound r n rest h with ⟨c1, c2, cs, rfl, hc1, hc2, hmt⟩ | hmt
      · obtain ⟨ws, ds, hdec, hws, hds, hdig, hrest, hn⟩ := matchTail_sound cs n rest hmt
        refine ⟨m ++ [c1, c2], ws, ds, ?_, ?_, hws, hds, hdig, hrest, hn⟩
        · rw [hdec]
          simp [List.append_assoc]
        · rcases hc2 with hc2 | hc2 <;>
            simp [kwSpellings, List.map_append, hm, hc1, hc2]
      · obtain ⟨ws, ds, hdec, hws, hds, hdig, hrest, hn⟩ := matchTail_sound r n rest hmt
        refine ⟨m, ws, ds, ?_, ?_, hws, hds, hdig, hrest, hn⟩
        · rw [hdec]
          simp [List.append_assoc]
        · simp [kwSpellings, hm]
    | none =>
      rw [hp2] at h
      dsimp only at h
      cases hp3 : matchPrefixCI ['r', 'e', 's', 'o', 'l', 'v', 'e'] l with
      | some r =>
        rw [hp3] at h
        dsimp only at h
        obtain ⟨m, rfl, hm⟩ := matchPrefixCI_sound _ l r hp3
        rcases matchSuffixSD_sound r n rest h with ⟨c, cs, rfl, hc, hmt⟩ | hmt
        · obtain ⟨ws, ds, hdec, hws, hds, hdig, hrest, hn⟩ := matchTail_sound cs n rest hmt
          refine ⟨m ++ [c], ws, ds, ?_, ?_, hws, hds, hdig, hrest, hn⟩
          · rw [hdec]
            simp [List.append_assoc]
          · rcases hc with hc | hc <;>
              simp [kwSpellings, List.map_append, hm, hc]
        · obtain ⟨ws, ds, hdec, hws, hds, hdig, hrest, hn⟩ := matchTail_sound r n rest hmt
          refine ⟨m, ws, ds, ?_, ?_, hws, hds, hdig, hrest, hn⟩
          · rw [hdec]
            simp [List.append_assoc]
          · simp [kwSpellings, hm]
      | none =>
        rw [hp3] at h
        cases h

/-- A successful attempt consumes at least one character. -/
lemma tryMatchAt_length (l : List Char) (n : Nat) (rest : List Char)
    (h : tryMatchAt l = some (n, rest)) : rest.length < l.length := by
  obtain ⟨kw, ws, ds, hdec, _, _, _, _, _, _⟩ := tryMatchAt_sound l n rest h
  rw [hdec]
  simp [List.length_append]
  omega

/-! ### One pattern attempt: completeness -/

/-- The head of the whitespace-hash region never carries one of the optional
suffix letters, so the backtracking of `[sd]?` / `(?:e[sd])?` always settles
on the alternative the decomposition dictates. -/
lemma ws_hash_not_sd (ws X : List Char) (hws : ∀ c ∈ ws, isJsSpace c = true) :
    ∀ c, (ws ++ '#' :: X).head? = some c → ¬(lowerChar c = 's' ∨ lowerChar c = 'd') :=
  fun c hc => (space_or_hash_not_sde c (ws_hash_head_cond ws X hws c hc)).1

lemma ws_hash_not_e (ws X : List Char) (hws : ∀ c ∈ ws, isJsSpace c = true) :
    ∀ c, (ws ++ '#' :: X).head? = some c → lowerChar c ≠ 'e' :=
  fun c hc => (space_or_hash_not_sde c (ws_hash_head_cond ws X hws c hc)).2

/-- A valid decomposition at the current position makes the pattern attempt
succeed with exactly that digit group and rest. -/
lemma tryMatchAt_complete (kw ws ds rest : List Char)
    (hkw : kw.map lowerChar ∈ kwSpellings)
    (hws : ∀ c ∈ ws, isJsSpace c = true) (hds : ds ≠ [])
    (hdig : ∀ c ∈ ds, isDigitChar c = true)
    (hrest : ∀ c, rest.head? = some c → isDigitChar c = false) :
    tryMatchAt (kw ++ ws ++ '#' :: (ds ++ rest)) = some (natOfDigits ds, rest) := by
  have htail := matchTail_complete ws ds rest hws hds hdig hrest
  simp only [kwSpellings, List.mem_cons, List.mem_singleton, List.not_mem_nil,
    or_false] at hkw
  rcases hkw with h | h | h | h | h | h | h | h | h
  · -- close
    unfold tryMatchAt
    rw [List.append_assoc, ← h, matchPrefixCI_complete]
    dsimp only
    rw [matchSuffixSD_not_sd _ (ws_hash_not_sd ws _ hws)]
    exact htail
  · -- closes
    have h5 : (kw.take 5).map lowerChar = ['c', 'l', 'o', 's', 'e'] := by
      rw [List.map_take, h]; rfl
    have h6 : (kw.drop 5).map lowerChar = ['s'] := by
      rw [List.map_drop, h]; rfl
    obtain ⟨a, ha, ha2⟩ := map_lowerChar_single_inv _ _ h6
    unfold tryMatchAt
    have hl : kw ++ ws ++ '#' :: (ds ++ rest) =
        kw.take 5 ++ (a :: (ws ++ '#' :: (ds ++ rest))) := by
      conv_lhs => rw [← List.take_append_drop 5 kw]
      rw [ha]
      simp [List.append_assoc]
    rw [hl, ← h5, matchPrefixCI_complete]
    dsimp only
    exact matchSuffixSD_of_sd a _ _ (Or.inl ha2) htail
  · -- closed
    have h5 : (kw.take 5).map lowerChar = ['c', 'l', 'o', 's', 'e'] := by
      rw [List.map_take, h]; rfl
    have h6 : (kw.drop 5).map lowerChar = ['d'] := by
      rw [List.map_drop, h]; rfl
    obtain ⟨a, ha, ha2⟩ := map_lowerChar_single_inv _ _ h6
    unfold tryMatchAt
    have hl : kw ++ ws ++ '#' :: (ds ++ rest) =
        kw.take 5 ++ (a :: (ws ++ '#' :: (ds ++ rest))) := by
      conv_lhs => rw [← List.take_append_drop 5 kw]
      rw [ha]
      simp [List.append_assoc]
    rw [hl, ← h5, matchPrefixCI_complete]
    dsimp only
    exact matchSuffixSD_of_sd a _ _ (Or.inr ha2) htail
  · -- fix
    unfold tryMatchAt
    rw [List.append_assoc]
    rw [prefix_none_of_head_ne 'c' _ kw _ 'f' (by rw [h]; rfl) (by decide)]
    dsimp only
    rw [← h, matchPrefixCI_complete]
    dsimp only
    rw [matchSuffixESD_not_e _ (ws_hash_not_e ws _ hws)]
    exact htail
  · -- fixes
    have h3 : (kw.take 3).map lowerChar = ['f', 'i', 'x'] := by
      rw [List.map_take, h]; rfl
    have h4 : (kw.drop 3).map lowerChar = ['e', 's'] := by
      rw [List.map_drop, h]; rfl
    obtain ⟨a, b, hab, ha2, hb2⟩ := map_lowerChar_pair_inv _ _ _ h4
    unfold tryMatchAt
    rw [List.append_assoc]
    rw [prefix_none_of_head_ne 'c' _ kw _ 'f' (by rw [h]; rfl) (by decide)]
    dsimp only
    have hl : kw ++ (ws ++ '#' :: (ds ++ rest)) =
        kw.take 3 ++ (a :: b :: (ws ++ '#' :: (ds ++ rest))) := by
      conv_lhs => rw [← List.take_append_drop 3 kw]
      rw [hab]
      simp [List.append_assoc]
    rw [hl, ← h3, matchPrefixCI_complete]
    dsimp only
    exact matchSuffixESD_of_esd a b _ _ ha2 (Or.inl hb2) htail
  · -- fixed
    have h3 : (kw.take 3).map lowerChar = ['f', 'i', 'x'] := by
      rw [List.map_take, h]; rfl
    have h4 : (kw.drop 3).map lowerChar = ['e', 'd'] := by
      rw [List.map_drop, h]; rfl
    obtain ⟨a, b, hab, ha2, hb2⟩ := map_lowerChar_pair_inv _ _ _ h4
    unfold tryMatchAt
    rw [List.append_assoc]
    rw [prefix_none_of_head_ne 'c' _ kw _ 'f' (by rw [h]; rfl) (by decide)]
    dsimp only
    have hl : kw ++ (ws ++ '#' :: (ds ++ rest)) =
        kw.take 3 ++ (a :: b :: (ws ++ '#' :: (ds ++ rest))) := by
      conv_lhs => rw [← List.take_append_drop 3 kw]
      rw [hab]
      simp [List.append_assoc]
    rw [hl, ← h3, matchPrefixCI_complete]
    dsimp only
    exact matchSuffixESD_of_esd a b _ _ ha2 (Or.inr hb2) htail
  · -- resolve
    unfold tryMatchAt
    rw [List.append_assoc]
    rw [prefix_none_of_head_ne 'c' _ kw _ 'r' (by rw [h]; rfl) (by decide)]
    dsimp only
    rw [prefix_none_of_head_ne 'f' _ kw _ 'r' (by rw [h]; rfl) (by decide)]
    dsimp only
    rw [← h, matchPrefixCI_complete]
    dsimp only
    rw [matchSuffixSD_not_sd _ (ws_hash_not_sd ws _ hws)]
    exact htail
  · -- resolves
    have h7 : (kw.take 7).map lowerChar = ['r', 'e', 's', 'o', 'l', 'v', 'e'] := by
      rw [List.map_take, h]; rfl
    have h8 : (kw.drop 7).map lowerChar = ['s'] := by
      rw [List.map_drop, h]; rfl
    obtain ⟨a, ha, ha2⟩ := map_lowerChar_single_inv _ _ h8
    unfold tryMatchAt
    rw [List.append_assoc]
    rw [prefix_none_of_head_ne 'c' _ kw _ 'r' (by rw [h]; rfl) (by decide)]
    dsimp only
    rw [prefix_none_of_head_ne 'f' _ kw _ 'r' (by rw [h]; rfl) (by decide)]
    dsimp only
    have hl : kw ++ (ws ++ '#' :: (ds ++ rest)) =
        kw.take 7 ++ (a :: (ws ++ '#' :: (ds ++ rest))) := by
      conv_lhs => rw [← List.take_append_drop 7 kw]
      rw [ha]
      simp [List.append_assoc]
    rw [hl, ← h7, matchPrefixCI_complete]
    dsimp only
    exact matchSuffixSD_of_sd a _ _ (Or.inl ha2) htail
  · -- resolved
    have h7 : (kw.take 7).map lowerChar = ['r', 'e', 's', 'o', 'l', 'v', 'e'] := by
      rw [List.map_take, h]; rfl
    have h8 : (kw.drop 7).map lowerChar = ['d'] := by
      rw [List.map_drop, h]; rfl
    obtain ⟨a, ha, ha2⟩ := map_lowerChar_single_inv _ _ h8
    unfold tryMatchAt
    rw [List.append_assoc]
    rw [prefix_none_of_head_ne 'c' _ kw _ 'r' (by rw [h]; rfl) (by decide)]
    dsimp only
    rw [prefix_none_of_head_ne 'f' _ kw _ 'r' (by rw [h]; rfl) (by decide)]
    dsimp only
    have hl : kw ++ (ws ++ '#' :: (ds ++ rest)) =
        kw.take 7 ++ (a :: (ws ++ '#' :: (ds ++ rest))) := by
      conv_lhs => rw [← List.take_append_drop 7 kw]
      rw [ha]
      simp [List.append_assoc]
    rw [hl, ← h7, matchPrefixCI_complete]
    dsimp only
    exact matchSuffixSD_of_sd a _ _ (Or.inr ha2) htail

/-! ### No occurrence can start strictly inside a match -/

lemma hash_not_cfr : ¬(lowerChar '#' = 'c' ∨ lowerChar '#' = 'f' ∨ lowerChar '#' = 'r') := by
  decide

lemma space_not_cfr (c : Char) (h : isJsSpace c = true) :
    ¬(lowerChar c = 'c' ∨ lowerChar c = 'f' ∨ lowerChar c = 'r') := by
  simp only [isJsSpace, Bool.or_eq_true, beq_iff_eq] at h
  rcases h with ((((((((rfl | rfl) | rfl) | rfl) | rfl) | rfl) | rfl) | rfl) | rfl) | rfl <;>
    decide

lemma digit_not_cfr (c : Char) (h : isDigitChar c = true) :
    ¬(lowerChar c = 'c' ∨ lowerChar c = 'f' ∨ lowerChar c = 'r') := by
  simp only [isDigitChar, Bool.and_eq_true, decide_eq_true_eq] at h
  intro hcfr
  have hlow : (lowerChar c).toNat = c.toNat := by
    rw [lowerChar_toNat, if_neg (by omega)]
  have h99 : ('c' : Char).toNat = 99 := by decide
  have h102 : ('f' : Char).toNat = 102 := by decide
  have h114 : ('r' : Char).toNat = 114 := by decide
  rcases hcfr with h2 | h2 | h2 <;>
    · have := congrArg Char.toNat h2
      omega

lemma spelling_tail_not_cfr :
    ∀ S ∈ kwSpellings, ∀ z ∈ S.tail, ¬(z = 'c' ∨ z = 'f' ∨ z = 'r') := by
  decide

lemma head_ws_hash_not_cfr (ws0 X : List Char) (hws : ∀ c ∈ ws0, isJsSpace c = true)
    (x : Char) (t : List Char) (h : x :: t = ws0 ++ '#' :: X) :
    ¬(lowerChar x = 'c' ∨ lowerChar x = 'f' ∨ lowerChar x = 'r') := by
  cases ws0 with
  | nil =>
    rw [List.nil_append] at h
    injection h with h1
    rw [h1]
    exact hash_not_cfr
  | cons w ws2 =>
    rw [List.cons_append] at h
    injection h with h1
    rw [h1]
    exact space_not_cfr w (hws w (by simp))

/-- A character strictly inside a match region (keyword, whitespace, `#`,
digit group) never lowers to one of the keyword head letters c/f/r, so no
occurrence of the pattern can start strictly inside a match. -/
lemma match_inner_not_cfr (kw0 ws0 ds0 pre1 t : List Char) (x : Char)
    (hkw : kw0.map lowerChar ∈ kwSpellings)
    (hws : ∀ c ∈ ws0, isJsSpace c = true)
    (hdig : ∀ c ∈ ds0, isDigitChar c = true)
    (heq : kw0 ++ ws0 ++ '#' :: ds0 = pre1 ++ x :: t) (hpre : pre1 ≠ []) :
    ¬(lowerChar x = 'c' ∨ lowerChar x = 'f' ∨ lowerChar x = 'r') := by
  rw [List.append_assoc] at heq
  rcases List.append_eq_append_iff.mp heq with ⟨a2, ha1, ha2⟩ | ⟨c2, hc1, hc2⟩
  · -- x lies in the whitespace / hash / digit zone
    rcases List.append_eq_append_iff.mp ha2 with ⟨b2, hb1, hb2⟩ | ⟨b2, hb1, hb2⟩
    · cases b2 with
      | nil =>
        rw [List.nil_append] at hb2
        injection hb2 with h1
        rw [← h1]
        exact hash_not_cfr
      | cons hch b3 =>
        rw [List.cons_append] at hb2
        injection hb2 with h1 h2
        have hx : x ∈ ds0 := by
          rw [h2]
          exact List.mem_append_right _ (by simp)
        exact digit_not_cfr x (hdig x hx)
    · cases b2 with
      | nil =>
        rw [List.nil_append] at hb2
        injection hb2 with h1
        rw [h1]
        exact hash_not_cfr
      | cons w b3 =>
        rw [List.cons_append] at hb2
        injection hb2 with h1 h2
        have hx : x ∈ ws0 := by
          rw [hb1, h1]
          exact List.mem_append_right _ (by simp)
        exact space_not_cfr x (hws x hx)
  · -- x lies in the keyword (or right at the whitespace zone's start)
    cases c2 with
    | nil =>
      rw [List.nil_append] at hc2
      exact head_ws_hash_not_cfr ws0 ds0 hws x t hc2
    | cons y c3 =>
      rw [List.cons_append] at hc2
      injection hc2 with h1 h2
      subst h1
      cases pre1 with
      | nil => exact absurd rfl hpre
      | cons q pre2 =>
        intro hcfr
        cases kw0 with
        | nil => simp [kwSpellings] at hkw
        | cons k1 k2 =>
          rw [List.cons_append] at hc1
          injection hc1 with h3 h4
          have hxk2 : x ∈ k2 := by
            rw [h4]
            exact List.mem_append_right _ (by simp)
          have hmem : lowerChar x ∈ ((k1 :: k2).map lowerChar).tail := by
            rw [List.map_cons]
            exact List.mem_map_of_mem lowerChar hxk2
          exact spelling_tail_not_cfr _ hkw (lowerChar x) hmem hcfr

/-! ### The scanner's equations -/

lemma scanFuel_nil : ∀ f, scanFuel f [] = [] := by
  intro f
  cases f <;> rfl

lemma scanFuel_congr : ∀ (f1 : Nat) (l : List Char) (f2 : Nat),
    l.length ≤ f1 → l.length ≤ f2 → scanFuel f1 l = scanFuel f2 l := by
  intro f1
  induction f1 with
  | zero =>
    intro l f2 h1 h2
    have : l = [] := List.eq_nil_of_length_eq_zero (Nat.le_zero.mp h1)
    subst this
    rw [scanFuel_nil, scanFuel_nil]
  | succ f ih =>
    intro l f2 h1 h2
    cases l with
    | nil => rw [scanFuel_nil, scanFuel_nil]
    | cons c cs =>
      cases f2 with
      | zero => simp at h2
      | succ f2b =>
        simp only [List.length_cons] at h1 h2
        cases h : tryMatchAt (c :: cs) with
        | some v =>
          obtain ⟨n, rest⟩ := v
          have hr := tryMatchAt_length (c :: cs) n rest h
          simp only [List.length_cons] at hr
          simp only [scanFuel, h]
          rw [ih rest f2b (by omega) (by omega)]
        | none =>
          simp only [scanFuel, h]
          exact ih cs f2b (by omega) (by omega)

lemma scanDefault_cons_some (c : Char) (cs : List Char) (n : Nat) (rest : List Char)
    (h : tryMatchAt (c :: cs) = some (n, rest)) :
    scanDefault (c :: cs) = n :: scanDefault rest := by
  have hr := tryMatchAt_length (c :: cs) n rest h
  simp only [List.length_cons] at hr
  unfold scanDefault
  simp only [List.length_cons, scanFuel, h]
  rw [scanFuel_congr cs.length rest rest.length (by omega) le_rfl]

lemma scanDefault_cons_none (c : Char) (cs : List Char)
    (h : tryMatchAt (c :: cs) = none) : scanDefault (c :: cs) = scanDefault cs := by
  unfold scanDefault
  simp only [List.length_cons, scanFuel, h]

/-! ### Occurrences shift under prefixing -/

lemma occursKW_append_left (s t : List Char) (n : Nat) (h : occursKW t n) :
    occursKW (s ++ t) n := by
  obtain ⟨pre, kw, ws, ds, post, hdec, hkw, hws, hds, hdig, hpost, hval⟩ := h
  exact ⟨s ++ pre, kw, ws, ds, post, by rw [hdec]; simp [List.append_assoc],
    hkw, hws, hds, hdig, hpost, hval⟩

/-! ### The scanner finds exactly the occurrences -/

lemma scanDefault_sound : ∀ (N : Nat) (l : List Char), l.length ≤ N →
    ∀ n, n ∈ scanDefault l → occursKW l n := by
  intro N
  induction N with
  | zero =>
    intro l hl n hn
    have : l = [] := List.eq_nil_of_length_eq_zero (Nat.le_zero.mp hl)
    subst this
    simp [scanDefault, scanFuel] at hn
  | succ N ih =>
    intro l hl n hn
    cases l with
    | nil => simp [scanDefault, scanFuel] at hn
    | cons c cs =>
      simp only [List.length_cons] at hl
      cases h : tryMatchAt (c :: cs) with
      | none =>
        rw [scanDefault_cons_none c cs h] at hn
        have hocc := ih cs (by omega) n hn
        have h2 := occursKW_append_left [c] cs n hocc
        simpa using h2
      | some v =>
        obtain ⟨m, rest⟩ := v
        rw [scanDefault_cons_some c cs m rest h] at hn
        obtain ⟨kw, ws, ds, hdec, hkw, hws, hds, hdig, hrest, hval⟩ :=
          tryMatchAt_sound _ m rest h
        rcases List.mem_cons.mp hn with rfl | hn2
        · exact ⟨[], kw, ws, ds, rest, by simpa using hdec, hkw, hws, hds, hdig,
            hrest, hval⟩
        · have hr := tryMatchAt_length (c :: cs) m rest h
          simp only [List.length_cons] at hr
          have hocc := ih rest (by omega) n hn2
          have h2 := occursKW_append_left (kw ++ ws ++ '#' :: ds) rest n hocc
          have h3 : (kw ++ ws ++ '#' :: ds) ++ rest = kw ++ ws ++ '#' :: (ds ++ rest) := by
            simp [List.append_assoc]
          rw [h3, ← hdec] at h2
          exact h2

lemma scanDefault_complete : ∀ (N : Nat) (l : List Char), l.length ≤ N →
    ∀ n, occursKW l n → n ∈ scanDefault l := by
  intro N
  induction N with
  | zero =>
    intro l hl n hocc
    have hnil : l = [] := List.eq_nil_of_length_eq_zero (Nat.le_zero.mp hl)
    subst hnil
    obtain ⟨pre, kw, ws, ds, post, hdec, hkw, _⟩ := hocc
    have hkwnil : kw = [] := by
      have hlen := congrArg List.length hdec
      simp [List.length_append] at hlen
      exact List.eq_nil_of_length_eq_zero (by omega)
    rw [hkwnil] at hkw
    simp [kwSpellings] at hkw
  | succ N ih =>
    intro l hl n hocc
    obtain ⟨pre, kw, ws, ds, post, hdec, hkw, hws, hds, hdig, hpost, hval⟩ := hocc
    cases l with
    | nil =>
      have hkwnil : kw = [] := by
        have hlen := congrArg List.length hdec
        simp [List.length_append] at hlen
        exact List.eq_nil_of_length_eq_zero (by omega)
      rw [hkwnil] at hkw
      simp [kwSpellings] at hkw
    | cons c cs =>
      simp only [List.length_cons] at hl
      cases h : tryMatchAt (c :: cs) with
      | none =>
        cases pre with
        | nil =>
          exfalso
          rw [List.nil_append] at hdec
          have hcomp := tryMatchAt_complete kw ws ds post hkw hws hds hdig hpost
          rw [← hdec, h] at hcomp
          cases hcomp
        | cons p pre2 =>
          simp only [List.cons_append] at hdec
          injection hdec with h1 h2
          rw [scanDefault_cons_none c cs h]
          exact ih cs (by omega) n ⟨pre2, kw, ws, ds, post, h2, hkw, hws, hds,
            hdig, hpost, hval⟩
      | some v =>
        obtain ⟨m, rest⟩ := v
        rw [scanDefault_cons_some c cs m rest h]
        obtain ⟨kw0, ws0, ds0, hdec0, hkw0, hws0, hds0, hdig0, hrest0, _⟩ :=
          tryMatchAt_sound _ m rest h
        cases pre with
        | nil =>
          rw [List.nil_append] at hdec
          have hcomp := tryMatchAt_complete kw ws ds post hkw hws hds hdig hpost
          rw [← hdec] at hcomp
          have heq := h.symm.trans hcomp
          injection heq with hv
          injection hv with hv1 hv2
          exact List.mem_cons.mpr (Or.inl (by rw [← hval, hv1]))
        | cons p pre2 =>
          -- the occurrence lies within `rest`
          have hM : c :: cs = (kw0 ++ ws0 ++ '#' :: ds0) ++ rest := by
            rw [hdec0]
            simp [List.append_assoc]
          have hP : c :: cs = (p :: pre2) ++ (kw ++ (ws ++ '#' :: (ds ++ post))) := by
            rw [hdec]
            simp [List.append_assoc]
          have happ := (hM.symm.trans hP)
          have hr := tryMatchAt_length (c :: cs) m rest h
          simp only [List.length_cons] at hr
          rcases List.append_eq_append_iff.mp happ with ⟨a2, ha1, ha2⟩ | ⟨c2, hc1, hc2⟩
          · -- the match region is a prefix of `p :: pre2`: occurrence inside rest
            refine List.mem_cons.mpr (Or.inr (ih rest (by omega) n
              ⟨a2, kw, ws, ds, post, ?_, hkw, hws, hds, hdig, hpost, hval⟩))
            rw [ha2]
            simp [List.append_assoc]
          · cases c2 with
            | nil =>
              -- boundary: the occurrence starts exactly at the end of the match
              rw [List.nil_append] at hc2
              refine List.mem_cons.mpr (Or.inr (ih rest (by omega) n
                ⟨[], kw, ws, ds, post, ?_, hkw, hws, hds, hdig, hpost, hval⟩))
              rw [← hc2]
              simp [List.append_assoc]
            | cons y c3 =>
              -- the occurrence's keyword head sits strictly inside the match
              exfalso
              rw [List.cons_append] at hc2
              obtain ⟨k1, k2, hk, hk1⟩ : ∃ k1 k2, kw = k1 :: k2 ∧
                  (lowerChar k1 = 'c' ∨ lowerChar k1 = 'f' ∨ lowerChar k1 = 'r') := by
                cases kw with
                | nil => simp [kwSpellings] at hkw
                | cons k1 k2 =>
                  refine ⟨k1, k2, rfl, ?_⟩
                  simp only [kwSpellings, List.mem_cons,
                    List.mem_singleton, List.not_mem_nil, or_false] at hkw
                  rcases hkw with h9 | h9 | h9 | h9 | h9 | h9 | h9 | h9 | h9 <;>
                    · rw [List.map_cons] at h9
                      injection h9 with ha _
                      simp [ha]
              rw [hk, List.cons_append] at hc2
              injection hc2 with hy1 hy2
              exact match_inner_not_cfr kw0 ws0 ds0 (p :: pre2) c3
                y hkw0 hws0 hdig0 (by simpa using hc1) (by simp)
                (hy1 ▸ hk1)

/-! ### Set semantics of the dedup fold -/

lemma mem_foldl_insertNum (l : List Nat) :
    ∀ (acc : List Nat) (k : Nat), k ∈ l.foldl insertNum acc ↔ k ∈ acc ∨ k ∈ l := by
  induction l with
  | nil => intro acc k; simp
  | cons a as ih =>
    intro acc k
    rw [List.foldl_cons, ih, mem_insertNum]
    simp only [List.mem_cons]
    tauto

/-! ## Claim C8 -/

/-- Claim C8: with no custom pattern, extraction returns exactly the numbers
`N` such that the message contains one of the nine keyword spellings
close/closes/closed/fix/fixes/fixed/resolve/resolves/resolved
(case-insensitively) followed by optional whitespace and `#` and the maximal
digit group of value `N`; in particular a plain `#N` with no preceding keyword
yields no match, and `keyword #N` yields exactly {N}. -/
theorem c8_default_extraction :
    (∀ (message : String) (n : Nat),
      n ∈ parseIssueNumbersFromCommitMessage message none ↔ occursKW message.data n) ∧
    parseIssueNumbersFromCommitMessage "related to #123" none = [] ∧
    parseIssueNumbersFromCommitMessage "Fixes #123" none = [123] := by
  refine ⟨?_, by decide, by decide⟩
  intro message n
  unfold parseIssueNumbersFromCommitMessage defaultNums
  rw [mem_foldl_insertNum]
  simp only [List.not_mem_nil, false_or]
  constructor
  · exact scanDefault_sound message.data.length message.data le_rfl n
  · exact scanDefault_complete message.data.length message.data le_rfl n

/-- Claim C2, witness: the amended invariants at a concrete two-issue run (a
passing labeled issue 5 and a gate-skipped unlabeled issue 7, auto-detect
disabled). -/
theorem c2_witness :
    ((runCore [{ number := 5, labels := [{ name := "qa-test" }] }, { number := 7 }] []
        { autoDetect := false }
        (fun _ => { analyze := .ok { isTestable := true, testUrl := some "https://x" },
                    runTest := .ok { status := .completed,
                                     result := some { success := true } } })).passedIssues.count 5 +
      (runCore [{ number := 5, labels := [{ name := "qa-test" }] }, { number := 7 }] []
        { autoDetect := false }
        (fun _ => { analyze := .ok { isTestable := true, testUrl := some "https://x" },
                    runTest := .ok { status := .completed,
                                     result := some { success := true } } })).failedIssues.count 5 +
      (runCore [{ number := 5, labels := [{ name := "qa-test" }] }, { number := 7 }] []
        { autoDetect := false }
        (fun _ => { analyze := .ok { isTestable := true, testUrl := some "https://x" },
                    runTest := .ok { status := .completed,
                                     result := some { success := true } } })).skippedIssues.count 5 ≤ 1) ∧
    (7 ∈ (runCore [{ number := 5, labels := [{ name := "qa-test" }] }, { number := 7 }] []
        { autoDetect := false }
        (fun _ => { analyze := .ok { isTestable := true, testUrl := some "https://x" },
                    runTest := .ok { status := .completed,
                                     result := some { success := true } } })).skippedIssues →
      7 ∉ (runCore [{ number := 5, labels := [{ name := "qa-test" }] }, { number := 7 }] []
        { autoDetect := false }
        (fun _ => { analyze := .ok { isTestable := true, testUrl := some "https://x" },
                    runTest := .ok { status := .completed,
                                     result := some { success := true } } })).testedIssues) := by
  constructor
  · exact (c2_category_invariants
      [{ number := 5, labels := [{ name := "qa-test" }] }, { number := 7 }] []
      { autoDetect := false }
      (fun _ => { analyze := .ok { isTestable := true, testUrl := some "https://x" },
                  runTest := .ok { status := .completed,
                                   result := some { success := true } } }) 5).1
  · exact (c2_category_invariants
      [{ number := 5, labels := [{ name := "qa-test" }] }, { number := 7 }] []
      { autoDetect := false }
      (fun _ => { analyze := .ok { isTestable := true, testUrl := some "https://x" },
                  runTest := .ok { status := .completed,
                                   result := some { success := true } } }) 7).2.2

end IssueTester
